import Mathlib

/-!
The per-frame state transformer of under-game (`src/gameStateTransformer.js`).

A shallow embedding of the simulation core of `GameStateTransformer`:
the history ring of past player heights (`updatePlayerYHistory`,
`getPastPlayerY`), the kinematics step (`updateKinematics`), the forces
(`assignEnvironmentalForces`), the cave samples (`updateCaveGeometry`), the
packing of the trail into the two worm blocks (`mapStateToUniforms`) and the
frame (`update`). What the class reads from `Util`, `AppState` and the cave
generator, which are outside this source file, is a parameter (`Env`).

JavaScript numbers are idealised: a number is an exact rational, or `nan`.
Rounding and overflow of IEEE doubles are not modelled, and a division by
zero yields `nan` (the model does not tell `Infinity` from `NaN`; in the
code the only divisors are an entity's mass and `|velocity.x + 1|`).
-/

namespace UnderGame

/-! ## Numbers -/

/-- A JavaScript number: an exact rational, or `nan` for a value that is not
a finite number. -/
inductive Num where
  | nan : Num
  | fin (q : ℚ) : Num
deriving DecidableEq

namespace Num

instance : Inhabited Num := ⟨fin 0⟩

instance (n : Nat) : OfNat Num n := ⟨fin n⟩

/-- The `+` of the source. -/
def add : Num → Num → Num
  | fin a, fin b => fin (a + b)
  | _, _ => nan

/-- The binary `-` of the source. -/
def sub : Num → Num → Num
  | fin a, fin b => fin (a - b)
  | _, _ => nan

/-- The `*` of the source. -/
def mul : Num → Num → Num
  | fin a, fin b => fin (a * b)
  | _, _ => nan

/-- The `/` of the source; a zero divisor gives no finite number. -/
def div : Num → Num → Num
  | fin a, fin b => if b = 0 then nan else fin (a / b)
  | _, _ => nan

/-- The unary `-` of the source. -/
def neg : Num → Num
  | fin a => fin (-a)
  | nan => nan

instance : Add Num := ⟨add⟩
instance : Sub Num := ⟨sub⟩
instance : Mul Num := ⟨mul⟩
instance : Div Num := ⟨div⟩
instance : Neg Num := ⟨neg⟩

/-- `Math.abs`. -/
def abs : Num → Num
  | fin a => fin |a|
  | nan => nan

/-- `Math.min` of two arguments: `NaN` if either argument is. -/
def min : Num → Num → Num
  | fin a, fin b => fin (Min.min a b)
  | _, _ => nan

end Num

/-! ## Vectors (`THREE.Vector2`) -/

/-- `THREE.Vector2`. -/
structure Vec2 where
  x : Num
  y : Num
deriving DecidableEq

namespace Vec2

/-- `new vec2()`: the zero vector. -/
def zero : Vec2 := ⟨0, 0⟩

/-- `Vector2.add`. -/
def add (a b : Vec2) : Vec2 := ⟨a.x + b.x, a.y + b.y⟩

/-- `Vector2.sub`. -/
def sub (a b : Vec2) : Vec2 := ⟨a.x - b.x, a.y - b.y⟩

/-- `Vector2.addScaledVector(v, s)`: `this.x += v.x * s; this.y += v.y * s`. -/
def addScaledVector (a v : Vec2) (s : Num) : Vec2 := ⟨a.x + v.x * s, a.y + v.y * s⟩

/-- The vector with the two finite components `x` and `y`. -/
def ofRat (x y : ℚ) : Vec2 := ⟨Num.fin x, Num.fin y⟩

end Vec2

/-! ## Arrays with holes -/

/-- A JavaScript array of numbers: its `length` and what each integer key
holds (`none` is `undefined`: a hole, or a key that was never assigned).
Keys below zero are ordinary properties: assigning one leaves `length` alone. -/
structure JSArray where
  length : Nat
  slot : Int → Option Num

namespace JSArray

/-- The literal `[]`. -/
def empty : JSArray := ⟨0, fun _ => none⟩

/-- The assignment `a[i] = v`. -/
def set (a : JSArray) (i : Int) (v : Num) : JSArray :=
  { length := if 0 ≤ i then max a.length (i.toNat + 1) else a.length
    slot := fun j => if j = i then some v else a.slot j }

end JSArray

/-! ## State -/

/-- The constant `Y_HISTORY_LENGTH`. -/
def Y_HISTORY_LENGTH : Int := 1000

/-- The constant `WORM_BLOCK_SPACING`. -/
def WORM_BLOCK_SPACING : Int := 80

/-- The constant `CAVE_SAMPLE_DIST`. -/
def CAVE_SAMPLE_DIST : Int := 8

/-- The object `state.player`. -/
structure Player where
  position : Vec2
  velocity : Vec2
  rotation : Num
  mass : Num
  activeForces : List Vec2
  dying : Bool
  dead : Bool
  velocityCap : Vec2

/-- The object `state.camera`. -/
structure Camera where
  position : Vec2
  velocity : Vec2
  activeForces : List Vec2
  mass : Num
  velocityCap : Vec2

/-- The object `state.keyStates`, read only at the key `ArrowUp`. -/
structure KeyStates where
  ArrowUp : Bool

/-- The object `this.state`. The cursor `yHistoryIndex` is an integer, or
`none` once it has been assigned `NaN`. -/
structure State where
  time : Num
  player : Player
  camera : Camera
  keyStates : KeyStates
  playerYHistory : JSArray
  yHistoryIndex : Option Int

/-- The state that `setUp` builds, given the two positions it computes from
the canvas size (`getInitialPlayerPosition()` and the canvas centre in metres). -/
def setUp (initialPlayerPosition cameraPosition : Vec2) : State :=
  { time := 0
    player :=
      { position := initialPlayerPosition
        velocity := Vec2.zero
        rotation := 0
        mass := 10
        activeForces := []
        dying := false
        dead := false
        velocityCap := ⟨12, 20⟩ }
    camera :=
      { position := cameraPosition
        velocity := Vec2.zero
        activeForces := []
        mass := 2
        velocityCap := ⟨20, 60⟩ }
    keyStates := ⟨false⟩
    playerYHistory := JSArray.empty
    yHistoryIndex := some 0 }

/-! ## The history ring -/

/-- The expression `Math.floor(x) % Y_HISTORY_LENGTH`: `%` is the remainder
that takes the sign of the dividend; `NaN` stays `NaN` (`none`). -/
def historyIndex : Num → Option Int
  | Num.nan => none
  | Num.fin q => some (Int.tmod ⌊q⌋ Y_HISTORY_LENGTH)

/-- The loop `for (i = start; ...; i++) a[i] = y`, run for `count` rounds. -/
def fillLoop (y : Num) : Nat → Int → JSArray → JSArray
  | 0, _, a => a
  | k + 1, i, a => fillLoop y k (i + 1) (a.set i y)

/-- The method `updatePlayerYHistory`. The bound of the first loop,
`playerYHistory.length`, does not change while that loop runs (it writes below
the length only). A comparison with `NaN` is false, so with a `NaN` cursor or
index the `else` loop runs no round. -/
def updatePlayerYHistory (state : State) (playerPosInPixels : Vec2) : State :=
  let newYHistoryIndex := historyIndex playerPosInPixels.x
  let y := playerPosInPixels.y
  let hist :=
    match state.yHistoryIndex, newYHistoryIndex with
    | some p, some n =>
      if p > n then
        let h1 := fillLoop y ((state.playerYHistory.length : Int) - p).toNat p state.playerYHistory
        fillLoop y (n + 1).toNat 0 h1
      else
        fillLoop y (n + 1 - p).toNat p state.playerYHistory
    | _, _ => state.playerYHistory
  { state with playerYHistory := hist, yHistoryIndex := newYHistoryIndex }

/-- The read `playerYHistory[i]` where `i` may be `NaN` (no such key). -/
def JSArray.read (a : JSArray) : Option Int → Option Num
  | some i => a.slot i
  | none => none

/-- The method `getPastPlayerY`; `initialPlayerY` is the value of
`Util.toPixels(this.getInitialPlayerPosition().y)` (`Util` and `AppState` are
outside the source at hand). `isNaN(y)` is false of a number only: it holds
of `undefined` and of `NaN`. -/
def getPastPlayerY (state : State) (initialPlayerY : Num) (x : Num) : Num :=
  let i := historyIndex x
  let y := state.playerYHistory.read i
  match y with
  | some (Num.fin v) => Num.fin v
  | _ => initialPlayerY

/-! ## Kinematics -/

/-- The divisor in the `// Cap velocity` assignment: `Math.abs(velocity.x + 1)`. -/
def capDivisor (vx : Num) : Num := Num.abs (vx + 1)

/-- The right-hand side of the `// Cap velocity` assignment:
`Math.min(Math.abs(v.x), Math.abs(cap.x)) * ((v.x + 1) / Math.abs(v.x + 1))`. -/
def capVelocityX (vx capx : Num) : Num :=
  Num.min (Num.abs vx) (Num.abs capx) * ((vx + 1) / capDivisor vx)

/-- The sum `totalForce` of the active forces, accumulated from `new vec2()`. -/
def totalForce (forces : List Vec2) : Vec2 := forces.foldl Vec2.add Vec2.zero

/-- The `else` branch of the loop body of `updateKinematics`, run for the
player, followed by `entity.activeForces.length = 0`. -/
def integratePlayer (entity : Player) (deltaTime : Num) : Player :=
  let total := totalForce entity.activeForces
  let acceleration : Vec2 := ⟨total.x / entity.mass, total.y / entity.mass⟩
  let velocity := entity.velocity.addScaledVector acceleration deltaTime
  let velocity : Vec2 := ⟨capVelocityX velocity.x entity.velocityCap.x, velocity.y⟩
  { entity with
    velocity := velocity
    position := entity.position.addScaledVector velocity deltaTime
    activeForces := [] }

/-- The camera branch of the loop body of `updateKinematics`, followed by
`entity.activeForces.length = 0`; `playerPosition` is `this.state.player.position`
as it stands when the camera is reached. -/
def moveCamera (entity : Camera) (playerPosition : Vec2) : Camera :=
  let target := playerPosition.add ⟨10, 0⟩
  { entity with
    position := entity.position.addScaledVector (target.sub entity.position) (1 / 10)
    activeForces := [] }

/-- The method `updateKinematics`: the loop over `[player, camera]`, in that
order, so the camera sees the player already moved. -/
def updateKinematics (state : State) (deltaTime : Num) : State :=
  let player := integratePlayer state.player deltaTime
  let camera := moveCamera state.camera player.position
  { state with player := player, camera := camera }

/-- The finite force vectors `(x, y)` as a list of `Vec2`. -/
def forcesOfRat (fs : List (ℚ × ℚ)) : List Vec2 := fs.map fun f => Vec2.ofRat f.1 f.2

/-- The horizontal velocity after integration and before the cap, on finite
data: `velocity.x + (sum of forces.x / mass) * deltaTime`. -/
def integratedVelocityX (vx : ℚ) (fs : List (ℚ × ℚ)) (mass deltaTime : ℚ) : ℚ :=
  vx + (fs.map Prod.fst).sum / mass * deltaTime

/-- The vertical velocity after integration, on finite data. -/
def integratedVelocityY (vy : ℚ) (fs : List (ℚ × ℚ)) (mass deltaTime : ℚ) : ℚ :=
  vy + (fs.map Prod.snd).sum / mass * deltaTime

/-- The rule of the specification for the horizontal cap,
`min(|v.x|, |cap.x|) * sign(v.x)`, with a true sign function. -/
def specCapX (v capx : ℚ) : ℚ := min |v| |capx| * (SignType.sign v : ℚ)

/-- The run `setUp`, record x = 998 with y = 1: slots 0..998 hold 1, the
array has length 999 and the cursor is 998. -/
def recordedAt998 : State := updatePlayerYHistory (setUp Vec2.zero Vec2.zero) (Vec2.ofRat 998 1)

/-- The run `setUp`, record x = 998 with y = 1, record x = 1001 with y = 2:
the player steps over pixel column 999 while the ring wraps for the first time. -/
def firstWrapRun : State :=
  updatePlayerYHistory recordedAt998 (Vec2.ofRat 1001 2)

/-- The run `setUp`, record x = 5 with y = 1: slots 0..5 hold 1 and the cursor is 5. -/
def recordedAtFive : State := updatePlayerYHistory (setUp Vec2.zero Vec2.zero) (Vec2.ofRat 5 1)

/-- The `setUp` state (both positions at the origin) with the player's
velocity and active forces replaced. -/
def withMotion (velocity : Vec2) (forces : List Vec2) : State :=
  { setUp Vec2.zero Vec2.zero with
    player := { (setUp Vec2.zero Vec2.zero).player with
      velocity := velocity
      activeForces := forces } }

/-- The cap as the code computes it on a finite velocity other than -1:
`min(|v|, |cap.x|) * ((v + 1) / |v + 1|)`. -/
def fixupCapX (v capx : ℚ) : ℚ := min |v| |capx| * ((v + 1) / |v + 1|)

/-- A state with the player at 11 m/s horizontally and 30 m/s downwards,
under the thrust `(80, 0)` and a downward force. -/
def fastPlayer : State :=
  withMotion (Vec2.ofRat 11 (-30)) (forcesOfRat [(80, 0), (0, -196)])

/-- A state with the player at rest under the single force `(-10, 0)`: with
mass 10 and `deltaTime = 1` the integrated `velocity.x` is exactly -1. -/
def pushedBack : State := withMotion (Vec2.ofRat 0 0) (forcesOfRat [(-10, 0)])

/-- A state with the player drifting backwards at 1/2 m/s and no force. -/
def driftingBack : State := withMotion (Vec2.ofRat (-1 / 2) 0) (forcesOfRat [])

/-- The `setUp` state with the player at rest and no force: the integrated
`velocity.x` is 0. -/
def atRest : State := withMotion (Vec2.ofRat 0 0) (forcesOfRat [])

/-! ## The collaborators outside the source, and the rendering boundary -/

/-- `Math.floor`. -/
def Num.floor : Num → Num
  | Num.fin a => Num.fin ⌊a⌋
  | Num.nan => Num.nan

/-- The operator `**` with a literal exponent. -/
def Num.pow : Num → Nat → Num
  | Num.fin a, n => Num.fin (a ^ n)
  | Num.nan, _ => Num.nan

/-- What the class reads from modules that are outside the source at hand:
`AppState.canvasWidth` and `AppState.canvasHeight`, `window.devicePixelRatio`,
the functions `toPixels`, `toPixelsV`, `toMetersV` and `smoothstep` of `Util`
and `getTopSurfaceY` of the cave generator, all taken as pure functions. -/
structure Env where
  canvasWidth : Num
  canvasHeight : Num
  devicePixelRatio : Num
  toPixels : Num → Num
  toPixelsV : Vec2 → Vec2
  toMetersV : Vec2 → Vec2
  smoothstep : Num → Num → Num → Num
  getTopSurfaceY : Num → Num

/-- Modelled from the spec: `Util.smoothstep(min, max, value)`, which is not in
the source at hand. The spec says of `smoothstep(0, 3, t)` that it is 0 at
t = 0, 1 at t ≥ 3 and smooth in between, a factor in [0, 1]: the Hermite step
`x * x * (3 - 2 * x)` of `x = clamp((value - min) / (max - min), 0, 1)`. -/
def smoothstep : Num → Num → Num → Num
  | Num.fin lo, Num.fin hi, Num.fin value =>
    if hi - lo = 0 then Num.nan
    else
      let x := max 0 (min 1 ((value - lo) / (hi - lo)))
      Num.fin (x * x * (3 - 2 * x))
  | _, _, _ => Num.nan

/-- The method `getInitialPlayerPosition`. -/
def getInitialPlayerPosition (env : Env) : Vec2 :=
  env.toMetersV ⟨env.canvasWidth * Num.fin (1 / 10), env.canvasHeight / 4⟩

/-- The fallback of `getPastPlayerY`:
`Util.toPixels(this.getInitialPlayerPosition().y)`. -/
def initialPlayerY (env : Env) : Num := env.toPixels (getInitialPlayerPosition env).y

/-- The method `cameraTransform`. -/
def cameraTransform (env : Env) (vec : Vec2) : Vec2 := env.toPixelsV vec

/-- A `Float32Array`: a fixed length and the element at each index below it.
Rounding to single precision is not modelled. -/
structure Float32Array where
  length : Nat
  get : Nat → Num

/-- A `Float32Array` of `n` zeros. -/
def Float32Array.zeros (n : Nat) : Float32Array := ⟨n, fun _ => 0⟩

/-- The assignment `a[i] = v` on a typed array: an index at or past the
length is ignored. -/
def Float32Array.set (a : Float32Array) (i : Nat) (v : Num) : Float32Array :=
  if i < a.length then { a with get := fun j => if j = i then v else a.get j } else a

/-- The length that `new Float32Array(n)` gives: `n` truncated towards zero
(`NaN` counts as 0); a negative length throws (`none`). -/
def typedArrayLength : Num → Option Nat
  | Num.nan => some 0
  | Num.fin q => if q ≤ -1 then none else some ⌊q⌋.toNat

/-- The uniforms this class writes; `time` is `none` until the class first
assigns it. -/
structure Uniforms where
  time : Option Num
  playerPos : Vec2
  cameraPos : Vec2
  wormData : Float32Array
  wormData2 : Float32Array

/-- The object `this`: the state, the flag `focused`, the uniforms and the
data array of the cave-height texture. -/
structure Transformer where
  state : State
  focused : Bool
  uniforms : Uniforms
  caveHeightTex : Float32Array

/-- The method `getCaveDataTexture`, reduced to the data array it allocates:
`new Float32Array(AppState.canvasWidth / CAVE_SAMPLE_DIST)`. -/
def getCaveDataTexture (env : Env) : Option Float32Array :=
  (typedArrayLength (env.canvasWidth / Num.fin CAVE_SAMPLE_DIST)).map Float32Array.zeros

/-- The uniforms that `setUp` builds: the two vectors are the `new vec2()` the
state starts with, the two blocks are `new Float32Array(16)`. -/
def setUpUniforms : Uniforms :=
  { time := none
    playerPos := Vec2.zero
    cameraPos := Vec2.zero
    wormData := Float32Array.zeros 16
    wormData2 := Float32Array.zeros 16 }

/-- The method `setUp` as a whole: the state with the two positions it
computes, the uniforms, the cave texture, and `focused = true` from
`setUpBrowserInputHandlers`. -/
def setUpTransformer (env : Env) : Option Transformer :=
  (getCaveDataTexture env).map fun tex =>
    { state := setUp (getInitialPlayerPosition env)
        (env.toMetersV ⟨env.canvasWidth / 2, env.canvasHeight / 2⟩)
      focused := true
      uniforms := setUpUniforms
      caveHeightTex := tex }

/-! ## Forces -/

/-- The constant `gravityForceMagnitude` of `assignEnvironmentalForces`:
`(6.673e-11 * 5.98e24 * player.mass) / 6.38e6 ** 2`. -/
def gravityForceMagnitude (mass : Num) : Num :=
  (Num.fin (6673 / 10 ^ 14) * Num.fin (598 * 10 ^ 22) * mass) / Num.pow (Num.fin 6380000) 2

/-- The method `assignEnvironmentalForces`; `push` appends at the end. -/
def assignEnvironmentalForces (env : Env) (state : State) : State :=
  let player := state.player
  let introScale := env.smoothstep 0 3 state.time
  let forces := player.activeForces ++ [⟨0, -gravityForceMagnitude player.mass * 2 * introScale⟩]
  let forces := forces ++ [⟨80, 0⟩]
  let forces := if state.keyStates.ArrowUp then forces ++ [⟨0, 500 * introScale⟩] else forces
  { state with player := { player with activeForces := forces } }

/-! ## Cave samples -/

/-- The number of rounds of `for (let i = 0; i < bound; i++)`: the number of
naturals below `bound`, none when `bound` is `NaN`. -/
def loopRounds : Num → Nat
  | Num.nan => 0
  | Num.fin q => ⌈q⌉.toNat

/-- The constant `texelCount` of `updateCaveGeometry`:
`AppState.canvasWidth / (CAVE_SAMPLE_DIST / window.devicePixelRatio)`. -/
def texelCount (env : Env) : Num :=
  env.canvasWidth / (Num.fin CAVE_SAMPLE_DIST / env.devicePixelRatio)

/-- The method `updateCaveGeometry`, on the data array of the texture. -/
def updateCaveGeometry (env : Env) (state : State) (data : Float32Array) : Float32Array :=
  let camX := Num.floor (env.toPixels state.camera.position.x) - Num.floor (env.canvasWidth / 2)
  (List.range (loopRounds (texelCount env))).foldl
    (fun d (i : Nat) =>
      let y := env.getTopSurfaceY (Num.fin (i : ℚ) * Num.fin CAVE_SAMPLE_DIST + camX)
      d.set i (env.toPixels y))
    data

/-! ## The worm -/

/-- The method `updateWorm`. -/
def updateWorm (env : Env) (state : State) : State :=
  let playerPosInPixels := cameraTransform env state.player.position
  updatePlayerYHistory state playerPosInPixels

/-- The method `setWormPartData`. -/
def setWormPartData (u : Uniforms) (position : Vec2) (rotation : Num) (index : Nat) : Uniforms :=
  if index < 4 then
    let i := index * 4
    { u with wormData :=
        ((u.wormData.set (i + 0) position.x).set (i + 1) position.y).set (i + 2) rotation }
  else
    let i := (index - 4) * 4
    { u with wormData2 :=
        ((u.wormData2.set (i + 0) position.x).set (i + 1) position.y).set (i + 2) rotation }

/-- The position of trail segment `i` in `mapStateToUniforms`: the clone of
`playerPos` with `x += -WORM_BLOCK_SPACING * i` and `y = getPastPlayerY(x)`. -/
def wormPartPosition (env : Env) (state : State) (playerPos : Vec2) (i : Nat) : Vec2 :=
  let x := playerPos.x + (-Num.fin WORM_BLOCK_SPACING) * Num.fin (i : ℚ)
  ⟨x, getPastPlayerY state (initialPlayerY env) x⟩

/-- The method `mapStateToUniforms`. -/
def mapStateToUniforms (env : Env) (state : State) (u : Uniforms) : Uniforms :=
  let playerPos := cameraTransform env state.player.position
  let cameraPos := cameraTransform env state.camera.position
  let u := { u with time := some state.time, playerPos := playerPos, cameraPos := cameraPos }
  (List.range 6).foldl
    (fun u i => setWormPartData u (wormPartPosition env state playerPos i) 0 i) u

/-! ## The frame -/

/-- The method `update`. `findCollisions()` returns `[]`, so its `forEach`
runs no round. -/
def update (env : Env) (t : Transformer) (time deltaTime : Num) : Transformer :=
  if t.focused then
    let state := assignEnvironmentalForces env t.state
    let state := updateKinematics state deltaTime
    let tex := updateCaveGeometry env state t.caveHeightTex
    let state := updateWorm env state
    let state := { state with time := time / 1000 }
    { t with
      state := state
      caveHeightTex := tex
      uniforms := mapStateToUniforms env state t.uniforms }
  else t

/-- A run of `update(time, deltaTime)` calls, one per pair of the list. -/
def updates (env : Env) (t : Transformer) (calls : List (Num × Num)) : Transformer :=
  calls.foldl (fun t c => update env t c.1 c.2) t

/-- One frame of the host: the canvas has or has not the focus (`blur` and
`focus` events set the flag before the call), then `update(time, deltaTime)`
with a finite timestamp in milliseconds. -/
structure Frame where
  focused : Bool
  time : ℚ
  deltaTime : Num

/-- The frame as the class sees it: the flag is set, then `update` runs. -/
def runFrame (env : Env) (t : Transformer) (f : Frame) : Transformer :=
  update env { t with focused := f.focused } (Num.fin f.time) f.deltaTime

/-- A run of frames. -/
def runFrames (env : Env) (t : Transformer) (frames : List Frame) : Transformer :=
  frames.foldl (runFrame env) t

/-- A run of `updatePlayerYHistory` calls, one per pixel position of the list. -/
def recordFrom (state : State) (calls : List Vec2) : State :=
  calls.foldl updatePlayerYHistory state

/-- The finite pixel positions `(x, y)` as a list of `Vec2`. -/
def finitePositions (calls : List (ℚ × ℚ)) : List Vec2 := calls.map fun c => Vec2.ofRat c.1 c.2

/-- The quantity `G * M * m / R ^ 2` of the specification, with
`G = 6.673e-11`, `M = 5.98e24` and `R = 6.38e6`. -/
def gravityRat (m : ℚ) : ℚ := 6673 / 10 ^ 14 * (598 * 10 ^ 22) * m / 6380000 ^ 2

/-- The forces that `assignEnvironmentalForces` has pushed: what follows the
forces that were there before the call. -/
def pushedForces (env : Env) (state : State) : List Vec2 :=
  (assignEnvironmentalForces env state).player.activeForces.drop state.player.activeForces.length

/-- A transformer that has lost the focus, in the middle of a game. -/
def blurred : Transformer :=
  { state := fastPlayer
    focused := false
    uniforms := setUpUniforms
    caveHeightTex := Float32Array.zeros 100 }

/-- A run of `mapStateToUniforms` calls from the uniforms of `setUp`, one per
state of the list. -/
def mapAll (env : Env) (states : List State) : Uniforms :=
  states.foldl (fun u s => mapStateToUniforms env s u) setUpUniforms

/-- An environment for the concrete runs: an 800 by 600 canvas on a display
with device pixel ratio 2, 32 pixels to the metre, a flat cave. -/
def sampleEnv : Env :=
  { canvasWidth := 800
    canvasHeight := 600
    devicePixelRatio := 2
    toPixels := fun a => a * 32
    toPixelsV := fun v => ⟨v.x * 32, v.y * 32⟩
    toMetersV := fun v => ⟨v.x / 32, v.y / 32⟩
    smoothstep := smoothstep
    getTopSurfaceY := fun _ => 0 }

/-- The invariant of the history ring: the length is at most 1000, no slot
below the length is undefined or `NaN`, and the cursor is an index from 0 up to
the length. -/
def HistoryOk (s : State) : Prop :=
  s.playerYHistory.length ≤ 1000 ∧
  (∀ i : Int, 0 ≤ i → i < s.playerYHistory.length →
    ∃ v : ℚ, s.playerYHistory.slot i = some (Num.fin v)) ∧
  ∃ p : Int, s.yHistoryIndex = some p ∧ 0 ≤ p ∧ p ≤ s.playerYHistory.length

/-- A state three seconds or more into the game (`time = 5`) with the up key
held and the forces of an earlier caller still queued. -/
def lateGame : State := { fastPlayer with time := Num.fin 5, keyStates := ⟨true⟩ }

/-- The invariant of the two worm blocks: both have 16 elements; in
`wormData` the offsets 4j+2 and 4j+3 hold 0, in `wormData2` the offsets 4j+2,
4j+3 and 8..15 hold 0. -/
def BlocksOk (u : Uniforms) : Prop :=
  u.wormData.length = 16 ∧ u.wormData2.length = 16 ∧
  (∀ i : Nat, i < 16 → i % 4 = 2 ∨ i % 4 = 3 → u.wormData.get i = 0) ∧
  (∀ i : Nat, i < 16 → i % 4 = 2 ∨ i % 4 = 3 ∨ 8 ≤ i → u.wormData2.get i = 0)

/-! ## Facts about the fill loop -/

theorem fillLoop_slot (y : Num) (k : Nat) (i : Int) (a : JSArray) (j : Int) :
    (fillLoop y k i a).slot j = if i ≤ j ∧ j < i + k then some y else a.slot j := by
  induction k generalizing i a with
  | zero =>
    rw [fillLoop, if_neg]
    omega
  | succ k ih =>
    rw [fillLoop, ih]
    by_cases h1 : i + 1 ≤ j ∧ j < i + 1 + (k : Int)
    · have h2 : i ≤ j ∧ j < i + ((k + 1 : Nat) : Int) := by omega
      rw [if_pos h1, if_pos h2]
    · rw [if_neg h1]
      by_cases h3 : j = i
      · have h2 : i ≤ j ∧ j < i + ((k + 1 : Nat) : Int) := by omega
        rw [if_pos h2]
        simp [JSArray.set, h3]
      · have h2 : ¬ (i ≤ j ∧ j < i + ((k + 1 : Nat) : Int)) := by omega
        rw [if_neg h2]
        simp [JSArray.set, h3]

theorem fillLoop_length (y : Num) (k : Nat) (i : Int) (a : JSArray) :
    (fillLoop y k i a).length =
      if 0 < k ∧ 0 < i + k then max a.length (i + k).toNat else a.length := by
  induction k generalizing i a with
  | zero => simp [fillLoop]
  | succ k ih =>
    rw [fillLoop, ih]
    simp only [JSArray.set]
    split_ifs <;> omega

/-! ## Facts about numbers and vectors -/

@[simp] theorem Num.fin_add (a b : ℚ) : Num.fin a + Num.fin b = Num.fin (a + b) := rfl

@[simp] theorem Num.fin_sub (a b : ℚ) : Num.fin a - Num.fin b = Num.fin (a - b) := rfl

@[simp] theorem Num.fin_mul (a b : ℚ) : Num.fin a * Num.fin b = Num.fin (a * b) := rfl

theorem Num.fin_div (a b : ℚ) :
    Num.fin a / Num.fin b = if b = 0 then Num.nan else Num.fin (a / b) := rfl

@[simp] theorem Num.fin_div_of_ne (a : ℚ) {b : ℚ} (h : b ≠ 0) :
    Num.fin a / Num.fin b = Num.fin (a / b) := by
  rw [Num.fin_div, if_neg h]

@[simp] theorem Num.fin_div_zero (a : ℚ) : Num.fin a / Num.fin 0 = Num.nan := by
  rw [Num.fin_div, if_pos rfl]

@[simp] theorem Num.abs_fin (a : ℚ) : Num.abs (Num.fin a) = Num.fin |a| := rfl

@[simp] theorem Num.min_fin (a b : ℚ) : Num.min (Num.fin a) (Num.fin b) = Num.fin (Min.min a b) := rfl

@[simp] theorem Num.mul_nan (a : Num) : a * Num.nan = Num.nan := by
  cases a <;> rfl

@[simp] theorem Num.ofNat_eq (n : Nat) : (OfNat.ofNat n : Num) = Num.fin (n : ℚ) := rfl

theorem totalForce_foldl (fs : List (ℚ × ℚ)) (ax ay : ℚ) :
    (forcesOfRat fs).foldl Vec2.add (Vec2.ofRat ax ay) =
      Vec2.ofRat (ax + (fs.map Prod.fst).sum) (ay + (fs.map Prod.snd).sum) := by
  induction fs generalizing ax ay with
  | nil => simp [forcesOfRat]
  | cons f fs ih =>
    have h := ih (ax + f.1) (ay + f.2)
    simp only [forcesOfRat] at h
    simp only [forcesOfRat, List.map_cons, List.foldl_cons, List.sum_cons]
    have e : (Vec2.ofRat ax ay).add (Vec2.ofRat f.1 f.2) = Vec2.ofRat (ax + f.1) (ay + f.2) := rfl
    rw [e, h, add_assoc, add_assoc]

theorem totalForce_forcesOfRat (fs : List (ℚ × ℚ)) :
    totalForce (forcesOfRat fs) = Vec2.ofRat (fs.map Prod.fst).sum (fs.map Prod.snd).sum := by
  have h := totalForce_foldl fs 0 0
  simp only [zero_add] at h
  exact h

/-! ## The history ring: what one call writes -/

theorem updatePlayerYHistory_cursor (state : State) (pos : Vec2) :
    (updatePlayerYHistory state pos).yHistoryIndex = historyIndex pos.x := rfl

theorem updatePlayerYHistory_slot_wrap (state : State) (pos : Vec2) (p n : Int)
    (hp : state.yHistoryIndex = some p) (hn : historyIndex pos.x = some n) (h : p > n)
    (j : Int) :
    (updatePlayerYHistory state pos).playerYHistory.slot j =
      if (0 ≤ j ∧ j ≤ n) ∨ (p ≤ j ∧ j < state.playerYHistory.length) then some pos.y
      else state.playerYHistory.slot j := by
  simp only [updatePlayerYHistory, hp, hn, if_pos h, fillLoop_slot]
  by_cases h1 : 0 ≤ j ∧ j ≤ n
  · have h2 : (0 : Int) ≤ j ∧ j < 0 + ((n + 1).toNat : Int) := by omega
    rw [if_pos h2, if_pos (Or.inl h1)]
  · have h2 : ¬ ((0 : Int) ≤ j ∧ j < 0 + ((n + 1).toNat : Int)) := by omega
    rw [if_neg h2]
    by_cases h3 : p ≤ j ∧ j < state.playerYHistory.length
    · have h4 : p ≤ j ∧ j < p + ((((state.playerYHistory.length : Int) - p).toNat : Nat) : Int) := by
        omega
      rw [if_pos h4, if_pos (Or.inr h3)]
    · have h4 : ¬ (p ≤ j ∧
          j < p + ((((state.playerYHistory.length : Int) - p).toNat : Nat) : Int)) := by
        omega
      have h5 : ¬ ((0 ≤ j ∧ j ≤ n) ∨ (p ≤ j ∧ j < state.playerYHistory.length)) := by
        rintro (h6 | h6)
        · exact h1 h6
        · exact h3 h6
      rw [if_neg h4, if_neg h5]

theorem updatePlayerYHistory_slot_nowrap (state : State) (pos : Vec2) (p n : Int)
    (hp : state.yHistoryIndex = some p) (hn : historyIndex pos.x = some n) (h : p ≤ n)
    (j : Int) :
    (updatePlayerYHistory state pos).playerYHistory.slot j =
      if p ≤ j ∧ j ≤ n then some pos.y else state.playerYHistory.slot j := by
  have hnot : ¬ p > n := by omega
  simp only [updatePlayerYHistory, hp, hn, if_neg hnot, fillLoop_slot]
  by_cases h1 : p ≤ j ∧ j ≤ n
  · have h2 : p ≤ j ∧ j < p + ((n + 1 - p).toNat : Int) := by omega
    rw [if_pos h1, if_pos h2]
  · have h2 : ¬ (p ≤ j ∧ j < p + ((n + 1 - p).toNat : Int)) := by omega
    rw [if_neg h1, if_neg h2]

theorem updatePlayerYHistory_length_wrap (state : State) (pos : Vec2) (p n : Int)
    (hp : state.yHistoryIndex = some p) (hn : historyIndex pos.x = some n) (h : p > n) :
    (updatePlayerYHistory state pos).playerYHistory.length =
      if 0 ≤ n then max state.playerYHistory.length (n + 1).toNat
      else state.playerYHistory.length := by
  simp only [updatePlayerYHistory, hp, hn, if_pos h, fillLoop_length]
  split_ifs <;> omega

theorem updatePlayerYHistory_length_nowrap (state : State) (pos : Vec2) (p n : Int)
    (hp : state.yHistoryIndex = some p) (hn : historyIndex pos.x = some n) (h : p ≤ n) :
    (updatePlayerYHistory state pos).playerYHistory.length =
      if 0 ≤ n then max state.playerYHistory.length (n + 1).toNat
      else state.playerYHistory.length := by
  have hnot : ¬ p > n := by omega
  simp only [updatePlayerYHistory, hp, hn, if_neg hnot, fillLoop_length]
  split_ifs <;> omega

theorem historyIndex_natCast (k : Nat) (hk : k < 1000) :
    historyIndex (Num.fin (k : ℚ)) = some (k : Int) := by
  simp only [historyIndex, Y_HISTORY_LENGTH, Int.floor_natCast]
  congr 1
  exact Int.tmod_eq_of_lt (by omega) (by omega)

theorem tmod_thousand_bounds (a : Int) :
    -1000 < Int.tmod a 1000 ∧ Int.tmod a 1000 < 1000 ∧
      (0 ≤ a → 0 ≤ Int.tmod a 1000) ∧ (a < 0 → Int.tmod a 1000 ≤ 0) := by
  cases a with
  | ofNat m =>
    have e : Int.tmod (Int.ofNat m) 1000 = ((m % 1000 : Nat) : Int) := rfl
    rw [e]
    refine ⟨by omega, by omega, fun _ => by omega, fun h => ?_⟩
    have h0 : (0 : Int) ≤ Int.ofNat m := Int.ofNat_nonneg m
    omega
  | negSucc m =>
    have e : Int.tmod (Int.negSucc m) 1000 = -(((m + 1) % 1000 : Nat) : Int) := rfl
    rw [e]
    have h0 : Int.negSucc m < 0 := Int.negSucc_lt_zero m
    refine ⟨by omega, by omega, fun h => ?_, fun _ => by omega⟩
    omega

theorem recordedAt998_cursor : recordedAt998.yHistoryIndex = some 998 := by
  have h := historyIndex_natCast 998 (by norm_num)
  rw [recordedAt998, updatePlayerYHistory_cursor]
  simpa [Vec2.ofRat] using h

theorem historyIndex_1001 : historyIndex (Num.fin 1001) = some 1 := by
  have h : ⌊(1001 : ℚ)⌋ = 1001 := by simp
  simp only [historyIndex, Y_HISTORY_LENGTH, h]
  rfl

theorem recordedAt998_slot (j : Int) :
    recordedAt998.playerYHistory.slot j = if 0 ≤ j ∧ j ≤ 998 then some (Num.fin 1) else none := by
  have h := historyIndex_natCast 998 (by norm_num)
  have h2 : historyIndex (Vec2.ofRat 998 1).x = some 998 := by simpa [Vec2.ofRat] using h
  rw [recordedAt998, updatePlayerYHistory_slot_nowrap _ _ 0 998 rfl h2 (by norm_num)]
  rfl

theorem recordedAt998_length : recordedAt998.playerYHistory.length = 999 := by
  have h := historyIndex_natCast 998 (by norm_num)
  have h2 : historyIndex (Vec2.ofRat 998 1).x = some 998 := by simpa [Vec2.ofRat] using h
  rw [recordedAt998, updatePlayerYHistory_length_nowrap _ _ 0 998 rfl h2 (by norm_num)]
  rfl

theorem firstWrapRun_slot (j : Int) :
    firstWrapRun.playerYHistory.slot j =
      if (0 ≤ j ∧ j ≤ 1) ∨ (998 ≤ j ∧ j < 999) then some (Num.fin 2)
      else if 0 ≤ j ∧ j ≤ 998 then some (Num.fin 1) else none := by
  rw [firstWrapRun, updatePlayerYHistory_slot_wrap _ _ 998 1 recordedAt998_cursor
    historyIndex_1001 (by norm_num), recordedAt998_length, recordedAt998_slot]
  rfl

/-! ## Kinematics on finite data -/

theorem capDivisor_fin (v : ℚ) : capDivisor (Num.fin v) = Num.fin |v + 1| := by
  simp [capDivisor]

theorem capVelocityX_fin (v capx : ℚ) (h : v ≠ -1) :
    capVelocityX (Num.fin v) (Num.fin capx) =
      Num.fin (min |v| |capx| * ((v + 1) / |v + 1|)) := by
  have h1 : v + 1 ≠ 0 := fun h0 => h (by linarith)
  have h2 : |v + 1| ≠ 0 := abs_ne_zero.mpr h1
  simp [capVelocityX, capDivisor, h2]

theorem capVelocityX_neg_one (capx : ℚ) :
    capVelocityX (Num.fin (-1)) (Num.fin capx) = Num.nan := by
  simp [capVelocityX, capDivisor]

theorem sign_quotient_of_pos {v : ℚ} (h : -1 < v) : (v + 1) / |v + 1| = 1 := by
  have h1 : 0 < v + 1 := by linarith
  rw [abs_of_pos h1, div_self (ne_of_gt h1)]

theorem sign_quotient_of_neg {v : ℚ} (h : v < -1) : (v + 1) / |v + 1| = -1 := by
  have h1 : v + 1 < 0 := by linarith
  rw [abs_of_neg h1, div_neg, div_self (ne_of_lt h1)]

theorem integratePlayer_velocity (p : Player) (fs : List (ℚ × ℚ)) (vx vy m dt capx : ℚ)
    (hf : p.activeForces = forcesOfRat fs) (hv : p.velocity = Vec2.ofRat vx vy)
    (hm : p.mass = Num.fin m) (hcap : p.velocityCap.x = Num.fin capx) (hm0 : m ≠ 0) :
    (integratePlayer p (Num.fin dt)).velocity =
      ⟨capVelocityX (Num.fin (integratedVelocityX vx fs m dt)) (Num.fin capx),
        Num.fin (integratedVelocityY vy fs m dt)⟩ := by
  simp [integratePlayer, hf, hv, hm, hcap, totalForce_forcesOfRat, Vec2.ofRat,
    Vec2.addScaledVector, integratedVelocityX, integratedVelocityY, hm0]

theorem integratePlayer_position (p : Player) (dt : Num) :
    (integratePlayer p dt).position =
      p.position.addScaledVector (integratePlayer p dt).velocity dt := rfl

theorem updateKinematics_velocity_x (state : State) (fs : List (ℚ × ℚ))
    (vx vy m dt capx : ℚ)
    (hf : state.player.activeForces = forcesOfRat fs)
    (hv : state.player.velocity = Vec2.ofRat vx vy)
    (hm : state.player.mass = Num.fin m)
    (hcap : state.player.velocityCap.x = Num.fin capx)
    (hmass : m ≠ 0) :
    (updateKinematics state (Num.fin dt)).player.velocity.x =
      capVelocityX (Num.fin (integratedVelocityX vx fs m dt)) (Num.fin capx) := by
  show (integratePlayer state.player (Num.fin dt)).velocity.x = _
  rw [integratePlayer_velocity state.player fs vx vy m dt capx hf hv hm hcap hmass]

theorem updateKinematics_velocity_y (state : State) (fs : List (ℚ × ℚ))
    (vx vy m dt capx : ℚ)
    (hf : state.player.activeForces = forcesOfRat fs)
    (hv : state.player.velocity = Vec2.ofRat vx vy)
    (hm : state.player.mass = Num.fin m)
    (hcap : state.player.velocityCap.x = Num.fin capx)
    (hmass : m ≠ 0) :
    (updateKinematics state (Num.fin dt)).player.velocity.y =
      Num.fin (integratedVelocityY vy fs m dt) := by
  show (integratePlayer state.player (Num.fin dt)).velocity.y = _
  rw [integratePlayer_velocity state.player fs vx vy m dt capx hf hv hm hcap hmass]

theorem fixupCapX_eq_sign (v capx : ℚ) (h : v ≠ -1) :
    fixupCapX v capx = min |v| |capx| * (SignType.sign (v + 1) : ℚ) := by
  rcases lt_or_gt_of_ne h with h1 | h1
  · have h2 : v + 1 < 0 := by linarith
    rw [fixupCapX, sign_quotient_of_neg h1, sign_neg h2]
    simp
  · have h2 : 0 < v + 1 := by linarith
    rw [fixupCapX, sign_quotient_of_pos h1, sign_pos h2]
    simp

theorem fixupCapX_eq_specCapX (v capx : ℚ) (h : v < -1 ∨ 0 ≤ v) :
    fixupCapX v capx = specCapX v capx := by
  rcases h with h1 | h1
  · have h2 : v < 0 := by linarith
    rw [fixupCapX, specCapX, sign_quotient_of_neg h1, sign_neg h2]
    simp
  · rcases eq_or_lt_of_le h1 with h2 | h2
    · subst h2
      simp [fixupCapX, specCapX]
    · have h3 : -1 < v := by linarith
      rw [fixupCapX, specCapX, sign_quotient_of_pos h3, sign_pos h2]
      simp

theorem updateKinematics_position (state : State) (fs : List (ℚ × ℚ))
    (vx vy m dt capx px py : ℚ)
    (hf : state.player.activeForces = forcesOfRat fs)
    (hv : state.player.velocity = Vec2.ofRat vx vy)
    (hm : state.player.mass = Num.fin m)
    (hcap : state.player.velocityCap.x = Num.fin capx)
    (hp : state.player.position = Vec2.ofRat px py)
    (hmass : m ≠ 0)
    (hne : integratedVelocityX vx fs m dt ≠ -1) :
    (updateKinematics state (Num.fin dt)).player.position =
      Vec2.ofRat (px + fixupCapX (integratedVelocityX vx fs m dt) capx * dt)
        (py + integratedVelocityY vy fs m dt * dt) := by
  show (integratePlayer state.player (Num.fin dt)).position = _
  rw [integratePlayer_position,
    integratePlayer_velocity state.player fs vx vy m dt capx hf hv hm hcap hmass,
    capVelocityX_fin _ _ hne, hp]
  rfl

theorem updateKinematics_camera_position (state : State) (dt : Num) :
    (updateKinematics state dt).camera.position =
      state.camera.position.addScaledVector
        (((updateKinematics state dt).player.position.add ⟨10, 0⟩).sub state.camera.position)
        (1 / 10) := rfl

/-- One frame of `fastPlayer` with deltaTime 1/2, evaluated: the integrated
velocity (15, -39.8) is stored as (12, -39.8), the player moves to (6, -19.9)
and the camera to (1.6, -1.99). -/
theorem fastPlayer_frame :
    (updateKinematics fastPlayer (Num.fin (1 / 2))).player.velocity =
      Vec2.ofRat 12 (-199 / 5) ∧
    (updateKinematics fastPlayer (Num.fin (1 / 2))).player.position =
      Vec2.ofRat 6 (-199 / 10) ∧
    (updateKinematics fastPlayer (Num.fin (1 / 2))).camera.position =
      Vec2.ofRat (8 / 5) (-199 / 100) := by
  have hm : fastPlayer.player.mass = Num.fin 10 := by simp [fastPlayer, withMotion, setUp]
  have hcap : fastPlayer.player.velocityCap.x = Num.fin 12 := by
    simp [fastPlayer, withMotion, setUp]
  have hp : fastPlayer.player.position = Vec2.ofRat 0 0 := by
    simp [fastPlayer, withMotion, setUp, Vec2.zero, Vec2.ofRat]
  have hc : fastPlayer.camera.position = Vec2.ofRat 0 0 := by
    simp [fastPlayer, withMotion, setUp, Vec2.zero, Vec2.ofRat]
  have hvx : integratedVelocityX 11 [(80, 0), (0, -196)] 10 (1 / 2) = 15 := by
    norm_num [integratedVelocityX]
  have hvy : integratedVelocityY (-30) [(80, 0), (0, -196)] 10 (1 / 2) = -199 / 5 := by
    norm_num [integratedVelocityY]
  have hfix : fixupCapX 15 12 = 12 := by
    rw [fixupCapX, sign_quotient_of_pos (by norm_num)]
    norm_num [abs_of_pos]
  have hpos := updateKinematics_position fastPlayer [(80, 0), (0, -196)] 11 (-30) 10 (1 / 2)
    12 0 0 rfl rfl hm hcap hp (by norm_num) (by rw [hvx]; norm_num)
  rw [hvx, hvy, hfix] at hpos
  have hpos2 : (updateKinematics fastPlayer (Num.fin (1 / 2))).player.position =
      Vec2.ofRat 6 (-199 / 10) := by
    rw [hpos]
    norm_num
  refine ⟨?_, hpos2, ?_⟩
  · show (integratePlayer fastPlayer.player (Num.fin (1 / 2))).velocity = _
    rw [integratePlayer_velocity fastPlayer.player [(80, 0), (0, -196)] 11 (-30) 10 (1 / 2)
      12 rfl rfl hm hcap (by norm_num), hvx, hvy, capVelocityX_fin _ _ (by norm_num)]
    have e : min |(15 : ℚ)| |12| * ((15 + 1) / |15 + 1|) = 12 := hfix
    rw [e]
    rfl
  · rw [updateKinematics_camera_position, hpos2, hc]
    simp only [Vec2.addScaledVector, Vec2.sub, Vec2.add, Vec2.ofRat, Num.ofNat_eq, Num.fin_add,
      Num.fin_sub, Num.fin_mul]
    rw [Num.fin_div_of_ne _ (by norm_num)]
    simp only [Num.fin_add, Num.fin_mul]
    norm_num

/-- Wraparound fill once the array is full: with cursor `p` above the new
index `n ≥ 0` and `playerYHistory.length = 1000`, every slot `p .. 999` and every
slot `0 .. n` holds the new `y`. -/
theorem updatePlayerYHistory_wrap_fill_of_full (state : State) (pos : Vec2) (p n : Int)
    (hp : state.yHistoryIndex = some p) (hn : historyIndex pos.x = some n) (h : p > n)
    (hlen : state.playerYHistory.length = 1000) (i : Int)
    (hi : (p ≤ i ∧ i ≤ 999) ∨ (0 ≤ i ∧ i ≤ n)) :
    (updatePlayerYHistory state pos).playerYHistory.slot i = some pos.y := by
  rw [updatePlayerYHistory_slot_wrap state pos p n hp hn h, if_pos]
  rw [hlen]
  omega

/-! ## The claims -/

/-- C1, the code at the failing run. From the `setUp` state, record x = 998
(y = 1) and then x = 1001 (y = 2). Before the second call the cursor is 998 and
the array has length 999; the new index is 1, so the wrap branch runs. It writes
the new y to slots 998, 0 and 1, and its first loop stops at
`playerYHistory.length`, not at `Y_HISTORY_LENGTH`: slot 999, which the claim
says holds the new y, stays undefined, the length stays 999, and
`getPastPlayerY(999)` gives the fallback. -/
theorem updatePlayerYHistory_wrap_stops_at_length :
    recordedAt998.yHistoryIndex = some 998 ∧
    recordedAt998.playerYHistory.length = 999 ∧
    historyIndex (Vec2.ofRat 1001 2).x = some 1 ∧
    firstWrapRun.playerYHistory.slot 998 = some (Num.fin 2) ∧
    firstWrapRun.playerYHistory.slot 0 = some (Num.fin 2) ∧
    firstWrapRun.playerYHistory.slot 1 = some (Num.fin 2) ∧
    firstWrapRun.playerYHistory.slot 999 = none ∧
    firstWrapRun.playerYHistory.slot 999 ≠ some (Vec2.ofRat 1001 2).y ∧
    getPastPlayerY firstWrapRun (Num.fin 250) (Num.fin 999) = Num.fin 250 := by
  have h999 : firstWrapRun.playerYHistory.slot 999 = none := by
    rw [firstWrapRun_slot]
    decide
  have hidx : historyIndex (Num.fin 999) = some 999 := by
    have h := historyIndex_natCast 999 (by norm_num)
    simpa using h
  refine ⟨recordedAt998_cursor, recordedAt998_length, historyIndex_1001, ?_, ?_, ?_, h999, ?_, ?_⟩
  · rw [firstWrapRun_slot]; decide
  · rw [firstWrapRun_slot]; decide
  · rw [firstWrapRun_slot]; decide
  · rw [h999]; exact fun h => Option.noConfusion h
  · simp only [getPastPlayerY, hidx, JSArray.read, h999]

/-- C2. No-wrap fill: when the cursor `p` is at most the new index
`n = floor(x) % 1000`, after `updatePlayerYHistory({x, y})` every slot `i` with
`p ≤ i ≤ n` holds the new `y` (slot `p` included) and the cursor is `n`. -/
theorem updatePlayerYHistory_nowrap_fill (state : State) (x : ℚ) (y : Num) (p : Int)
    (hp : state.yHistoryIndex = some p) (h : p ≤ Int.tmod ⌊x⌋ Y_HISTORY_LENGTH) :
    (∀ i : Int, p ≤ i → i ≤ Int.tmod ⌊x⌋ Y_HISTORY_LENGTH →
      (updatePlayerYHistory state ⟨Num.fin x, y⟩).playerYHistory.slot i = some y) ∧
    (updatePlayerYHistory state ⟨Num.fin x, y⟩).yHistoryIndex =
      some (Int.tmod ⌊x⌋ Y_HISTORY_LENGTH) := by
  refine ⟨fun i h1 h2 => ?_, rfl⟩
  rw [updatePlayerYHistory_slot_nowrap state ⟨Num.fin x, y⟩ p _ hp rfl h, if_pos ⟨h1, h2⟩]

/-- C2 at the run of the specification: after recording x = 5, y = 1, the
cursor is 5; recording x = 7, y = 2 leaves slots 5, 6 and 7 equal to 2 and
the cursor at 7. -/
theorem updatePlayerYHistory_nowrap_fill_witness :
    recordedAtFive.yHistoryIndex = some 5 ∧
    (5 : Int) ≤ Int.tmod ⌊(7 : ℚ)⌋ Y_HISTORY_LENGTH ∧
    (updatePlayerYHistory recordedAtFive ⟨Num.fin 7, Num.fin 2⟩).playerYHistory.slot 5
      = some (Num.fin 2) ∧
    (updatePlayerYHistory recordedAtFive ⟨Num.fin 7, Num.fin 2⟩).playerYHistory.slot 6
      = some (Num.fin 2) ∧
    (updatePlayerYHistory recordedAtFive ⟨Num.fin 7, Num.fin 2⟩).playerYHistory.slot 7
      = some (Num.fin 2) ∧
    (updatePlayerYHistory recordedAtFive ⟨Num.fin 7, Num.fin 2⟩).yHistoryIndex = some 7 := by
  have hp : recordedAtFive.yHistoryIndex = some 5 := by decide
  have h : (5 : Int) ≤ Int.tmod ⌊(7 : ℚ)⌋ Y_HISTORY_LENGTH := by decide
  have e : Int.tmod ⌊(7 : ℚ)⌋ Y_HISTORY_LENGTH = 7 := by decide
  have w := updatePlayerYHistory_nowrap_fill recordedAtFive 7 (Num.fin 2) 5 hp h
  rw [e] at w
  exact ⟨hp, h, w.1 5 (by decide) (by decide), w.1 6 (by decide) (by decide),
    w.1 7 (by decide) (by decide), w.2⟩

/-- C3, the claim refuted. At x = -1 the index `Math.floor(x) % 1000` is -1:
the `%` of the source takes the sign of the dividend, so the index of a
negative pixel is not in `0 .. 999`. -/
theorem historyIndex_negative_pixel :
    historyIndex (Num.fin (-1)) = some (-1) ∧
    ¬ (∀ x : ℚ, ∃ i : Int, historyIndex (Num.fin x) = some i ∧ 0 ≤ i ∧ i < 1000) := by
  have h : historyIndex (Num.fin (-1)) = some (-1) := by decide
  refine ⟨h, fun hall => ?_⟩
  obtain ⟨i, hi, h0, _⟩ := hall (-1)
  rw [h] at hi
  have e : (-1 : Int) = i := Option.some.inj hi
  omega

/-- C3 as amended. For every finite pixel x the index `Math.floor(x) % 1000`
that `updatePlayerYHistory` and `getPastPlayerY` compute is an integer strictly
between -1000 and 1000; it lies in `0 .. 999` when x ≥ 0 and in `-999 .. 0`
when x < 0. -/
theorem historyIndex_bounds (x : ℚ) :
    ∃ i : Int, historyIndex (Num.fin x) = some i ∧ -1000 < i ∧ i < 1000 ∧
      (0 ≤ x → 0 ≤ i) ∧ (x < 0 → i ≤ 0) := by
  have hb := tmod_thousand_bounds ⌊x⌋
  refine ⟨Int.tmod ⌊x⌋ 1000, rfl, hb.1, hb.2.1, fun hx => hb.2.2.1 (Int.floor_nonneg.mpr hx),
    fun hx => hb.2.2.2 ?_⟩
  have : ⌊x⌋ < 0 := Int.floor_lt.mpr (by simpa using hx)
  exact this

/-- C4. Lookup with fallback: for every state and every finite x, with
`i = Math.floor(x) % 1000`, `getPastPlayerY(x)` returns the number stored in
slot `i` when the slot holds a number, and the fallback when the slot was never
written (or holds `NaN`); with a finite fallback the result is never `NaN`. -/
theorem getPastPlayerY_lookup (state : State) (fallback x : ℚ) :
    (∀ v : ℚ, state.playerYHistory.slot (Int.tmod ⌊x⌋ Y_HISTORY_LENGTH) = some (Num.fin v) →
      getPastPlayerY state (Num.fin fallback) (Num.fin x) = Num.fin v) ∧
    (state.playerYHistory.slot (Int.tmod ⌊x⌋ Y_HISTORY_LENGTH) = none →
      getPastPlayerY state (Num.fin fallback) (Num.fin x) = Num.fin fallback) ∧
    (state.playerYHistory.slot (Int.tmod ⌊x⌋ Y_HISTORY_LENGTH) = some Num.nan →
      getPastPlayerY state (Num.fin fallback) (Num.fin x) = Num.fin fallback) ∧
    getPastPlayerY state (Num.fin fallback) (Num.fin x) ≠ Num.nan := by
  simp only [getPastPlayerY, historyIndex, JSArray.read]
  refine ⟨fun v hv => by rw [hv], fun h => by rw [h], fun h => by rw [h], ?_⟩
  cases hs : state.playerYHistory.slot (Int.tmod ⌊x⌋ Y_HISTORY_LENGTH) with
  | none => simp
  | some w => cases w <;> simp

/-- C4 at the run `setUp`, record x = 5 with y = 1, fallback 250: slot 3 was
written, so `getPastPlayerY(3)` is the stored 1; the key -300 of a trail
segment behind the start was never written, so `getPastPlayerY(-300)` is the
fallback 250. -/
theorem getPastPlayerY_lookup_witness :
    recordedAtFive.playerYHistory.slot (Int.tmod ⌊(3 : ℚ)⌋ Y_HISTORY_LENGTH) = some (Num.fin 1) ∧
    getPastPlayerY recordedAtFive (Num.fin 250) (Num.fin 3) = Num.fin 1 ∧
    recordedAtFive.playerYHistory.slot (Int.tmod ⌊(-300 : ℚ)⌋ Y_HISTORY_LENGTH) = none ∧
    getPastPlayerY recordedAtFive (Num.fin 250) (Num.fin (-300)) = Num.fin 250 :=
  ⟨by decide, (getPastPlayerY_lookup recordedAtFive 250 3).1 1 (by decide), by decide,
    (getPastPlayerY_lookup recordedAtFive 250 (-300)).2.1 (by decide)⟩

/-- C5. Velocity X-cap bound: for a player with finite velocity, forces and
cap and a non-zero mass (in particular a mass > 0), and every finite deltaTime
(in particular > 0), if the integrated velocity.x is not -1 then after
`updateKinematics` the player's velocity.x is a number `w` with
`|w| ≤ |velocityCap.x|`, hence `|w| ≤ 12` for the configured cap 12. -/
theorem updateKinematics_velocity_x_bounded (state : State) (fs : List (ℚ × ℚ))
    (vx vy m dt capx : ℚ)
    (hf : state.player.activeForces = forcesOfRat fs)
    (hv : state.player.velocity = Vec2.ofRat vx vy)
    (hm : state.player.mass = Num.fin m)
    (hcap : state.player.velocityCap.x = Num.fin capx)
    (hmass : m ≠ 0)
    (hne : integratedVelocityX vx fs m dt ≠ -1) :
    ∃ w : ℚ, (updateKinematics state (Num.fin dt)).player.velocity.x = Num.fin w ∧
      |w| ≤ |capx| ∧ (capx = 12 → |w| ≤ 12) := by
  have hvel := integratePlayer_velocity state.player fs vx vy m dt capx hf hv hm hcap hmass
  have hx : (updateKinematics state (Num.fin dt)).player.velocity.x =
      Num.fin (fixupCapX (integratedVelocityX vx fs m dt) capx) := by
    show (integratePlayer state.player (Num.fin dt)).velocity.x = _
    rw [hvel, capVelocityX_fin _ _ hne]
    rfl
  have hb : |fixupCapX (integratedVelocityX vx fs m dt) capx| ≤ |capx| := by
    have hmin : (0 : ℚ) ≤ min |integratedVelocityX vx fs m dt| |capx| :=
      le_min (abs_nonneg _) (abs_nonneg _)
    rcases lt_or_gt_of_ne hne with h | h
    · rw [fixupCapX, sign_quotient_of_neg h, mul_neg, mul_one, abs_neg, abs_of_nonneg hmin]
      exact min_le_right _ _
    · rw [fixupCapX, sign_quotient_of_pos h, mul_one, abs_of_nonneg hmin]
      exact min_le_right _ _
  refine ⟨_, hx, hb, fun h12 => ?_⟩
  subst h12
  simpa using hb

/-- C5 at a concrete frame: the player at 11 m/s under the thrust (80, 0),
mass 10, deltaTime 1/2, reaches 15 m/s before the cap and is stored with
`|velocity.x| ≤ 12`. -/
theorem updateKinematics_velocity_x_bounded_witness :
    integratedVelocityX 11 [(80, 0), (0, -196)] 10 (1 / 2) = 15 ∧
    ∃ w : ℚ, (updateKinematics fastPlayer (Num.fin (1 / 2))).player.velocity.x = Num.fin w ∧
      |w| ≤ |(12 : ℚ)| ∧ ((12 : ℚ) = 12 → |w| ≤ 12) := by
  have h15 : integratedVelocityX 11 [(80, 0), (0, -196)] 10 (1 / 2) = 15 := by
    norm_num [integratedVelocityX]
  refine ⟨h15, updateKinematics_velocity_x_bounded fastPlayer [(80, 0), (0, -196)]
    11 (-30) 10 (1 / 2) 12 rfl rfl ?_ ?_ (by norm_num) ?_⟩
  · simp [fastPlayer, withMotion, setUp]
  · simp [fastPlayer, withMotion, setUp]
  · rw [h15]; norm_num

/-- C6, the claim refuted. The player at rest with mass 10 under the force
(-10, 0) and deltaTime 1 has integrated velocity.x exactly -1; there the divisor
`Math.abs(velocity.x + 1)` of the cap step is 0, the step divides 0 by 0, and
the stored velocity.x and position.x are `NaN`. -/
theorem updateKinematics_zero_divisor_at_minus_one :
    integratedVelocityX 0 [(-10, 0)] 10 1 = -1 ∧
    capDivisor (Num.fin (-1)) = Num.fin 0 ∧
    (updateKinematics pushedBack (Num.fin 1)).player.velocity.x = Num.nan ∧
    (updateKinematics pushedBack (Num.fin 1)).player.position.x = Num.nan := by
  have h1 : integratedVelocityX 0 [(-10, 0)] 10 1 = -1 := by norm_num [integratedVelocityX]
  have hx : (updateKinematics pushedBack (Num.fin 1)).player.velocity.x = Num.nan := by
    rw [updateKinematics_velocity_x pushedBack [(-10, 0)] 0 0 10 1 12 rfl rfl
      (by simp [pushedBack, withMotion, setUp]) (by simp [pushedBack, withMotion, setUp])
      (by norm_num), h1, capVelocityX_neg_one]
  refine ⟨h1, by simp [capDivisor_fin], hx, ?_⟩
  show ((integratePlayer pushedBack.player (Num.fin 1)).position).x = Num.nan
  rw [integratePlayer_position]
  have hx2 : (integratePlayer pushedBack.player (Num.fin 1)).velocity.x = Num.nan := hx
  simp only [Vec2.addScaledVector, hx2]
  rfl

/-- C6 as amended. The divisor `Math.abs(velocity.x + 1)` of the cap step is
zero exactly when the integrated velocity.x is -1, and there the stored
velocity.x is `NaN`; for every other integrated velocity.x the divisor is
non-zero and the stored velocity.x is a number. -/
theorem updateKinematics_cap_divisor (state : State) (fs : List (ℚ × ℚ))
    (vx vy m dt capx : ℚ)
    (hf : state.player.activeForces = forcesOfRat fs)
    (hv : state.player.velocity = Vec2.ofRat vx vy)
    (hm : state.player.mass = Num.fin m)
    (hcap : state.player.velocityCap.x = Num.fin capx)
    (hmass : m ≠ 0) :
    (capDivisor (Num.fin (integratedVelocityX vx fs m dt)) = Num.fin 0 ↔
      integratedVelocityX vx fs m dt = -1) ∧
    (integratedVelocityX vx fs m dt ≠ -1 →
      ∃ w : ℚ, (updateKinematics state (Num.fin dt)).player.velocity.x = Num.fin w) ∧
    (integratedVelocityX vx fs m dt = -1 →
      (updateKinematics state (Num.fin dt)).player.velocity.x = Num.nan) := by
  have hx := updateKinematics_velocity_x state fs vx vy m dt capx hf hv hm hcap hmass
  refine ⟨?_, fun hne => ?_, fun heq => ?_⟩
  · rw [capDivisor_fin]
    constructor
    · intro h
      have h0 : |integratedVelocityX vx fs m dt + 1| = 0 := Num.fin.inj h
      have := abs_eq_zero.mp h0
      linarith
    · intro h
      rw [h]
      simp
  · exact ⟨_, by rw [hx, capVelocityX_fin _ _ hne]⟩
  · rw [hx, heq, capVelocityX_neg_one]

/-- C6 amended, at the frame the offset is there for: the player at rest with
no force has integrated velocity.x = 0; the divisor is 1 and the stored
velocity.x is 0. -/
theorem updateKinematics_cap_divisor_witness :
    integratedVelocityX 0 [] 10 1 = 0 ∧
    capDivisor (Num.fin 0) = Num.fin 1 ∧
    ((capDivisor (Num.fin (integratedVelocityX 0 [] 10 1)) = Num.fin 0 ↔
      integratedVelocityX 0 [] 10 1 = -1) ∧
    (integratedVelocityX 0 [] 10 1 ≠ -1 →
      ∃ w : ℚ, (updateKinematics atRest (Num.fin 1)).player.velocity.x = Num.fin w) ∧
    (integratedVelocityX 0 [] 10 1 = -1 →
      (updateKinematics atRest (Num.fin 1)).player.velocity.x = Num.nan)) :=
  ⟨by norm_num [integratedVelocityX], by simp [capDivisor_fin],
    updateKinematics_cap_divisor atRest [] 0 0 10 1 12 rfl rfl
      (by simp [atRest, withMotion, setUp]) (by simp [atRest, withMotion, setUp])
      (by norm_num)⟩

/-- C7, the claim refuted. The player drifting backwards at 1/2 m/s with no
force has integrated velocity.x = -1/2; the code stores velocity.x = +1/2, while
`min(|v|, |cap.x|) * sign(v)` is -1/2: the cap reverses the direction. -/
theorem updateKinematics_cap_reverses_slow_backward :
    integratedVelocityX (-1 / 2) [] 10 1 = -1 / 2 ∧
    (updateKinematics driftingBack (Num.fin 1)).player.velocity.x = Num.fin (1 / 2) ∧
    specCapX (-1 / 2) 12 = -1 / 2 ∧
    (updateKinematics driftingBack (Num.fin 1)).player.velocity.x ≠
      Num.fin (specCapX (-1 / 2) 12) := by
  have h0 : integratedVelocityX (-1 / 2) [] 10 1 = -1 / 2 := by norm_num [integratedVelocityX]
  have hneg : ((-1 / 2 : ℚ)) < 0 := by norm_num
  have hs : specCapX (-1 / 2) 12 = -1 / 2 := by
    rw [specCapX, sign_neg hneg]
    norm_num [abs_of_neg, abs_of_pos]
  have hx : (updateKinematics driftingBack (Num.fin 1)).player.velocity.x = Num.fin (1 / 2) := by
    rw [updateKinematics_velocity_x driftingBack [] (-1 / 2) 0 10 1 12 rfl rfl
      (by simp [driftingBack, withMotion, setUp]) (by simp [driftingBack, withMotion, setUp])
      (by norm_num), h0, capVelocityX_fin _ _ (by norm_num)]
    congr 1
    rw [sign_quotient_of_pos (by norm_num)]
    norm_num [abs_of_neg, abs_of_pos]
  refine ⟨h0, hx, hs, ?_⟩
  rw [hx, hs]
  intro h
  have := Num.fin.inj h
  norm_num at this

/-- C7 as amended. For every integrated velocity.x = v other than -1 and
every cap, the stored velocity.x is `min(|v|, |cap.x|) * sign(v + 1)`. This is
`min(|v|, |cap.x|) * sign(v)` when v < -1 or v ≥ 0, where the cap keeps the
direction of motion; for -1 < v < 0 it is `+min(|v|, |cap.x|)`, not negative. -/
theorem updateKinematics_cap_formula (state : State) (fs : List (ℚ × ℚ))
    (vx vy m dt capx : ℚ)
    (hf : state.player.activeForces = forcesOfRat fs)
    (hv : state.player.velocity = Vec2.ofRat vx vy)
    (hm : state.player.mass = Num.fin m)
    (hcap : state.player.velocityCap.x = Num.fin capx)
    (hmass : m ≠ 0)
    (hne : integratedVelocityX vx fs m dt ≠ -1) :
    (updateKinematics state (Num.fin dt)).player.velocity.x =
      Num.fin (min |integratedVelocityX vx fs m dt| |capx| *
        (SignType.sign (integratedVelocityX vx fs m dt + 1) : ℚ)) ∧
    (integratedVelocityX vx fs m dt < -1 ∨ 0 ≤ integratedVelocityX vx fs m dt →
      (updateKinematics state (Num.fin dt)).player.velocity.x =
        Num.fin (specCapX (integratedVelocityX vx fs m dt) capx)) ∧
    (-1 < integratedVelocityX vx fs m dt → integratedVelocityX vx fs m dt < 0 →
      (updateKinematics state (Num.fin dt)).player.velocity.x =
        Num.fin (min |integratedVelocityX vx fs m dt| |capx|)) := by
  have hx : (updateKinematics state (Num.fin dt)).player.velocity.x =
      Num.fin (fixupCapX (integratedVelocityX vx fs m dt) capx) := by
    rw [updateKinematics_velocity_x state fs vx vy m dt capx hf hv hm hcap hmass,
      capVelocityX_fin _ _ hne]
    rfl
  refine ⟨?_, fun h => ?_, fun h1 _ => ?_⟩
  · rw [hx, fixupCapX_eq_sign _ _ hne]
  · rw [hx, fixupCapX_eq_specCapX _ _ h]
  · rw [hx, fixupCapX, sign_quotient_of_pos h1, mul_one]

/-- C7 amended, at a concrete frame: the player at 11 m/s under the thrust
(80, 0), mass 10, deltaTime 1/2, has integrated velocity.x = 15 and is stored
with velocity.x = `min(15, 12) * sign(15)`. -/
theorem updateKinematics_cap_formula_witness :
    integratedVelocityX 11 [(80, 0), (0, -196)] 10 (1 / 2) ≠ -1 ∧
    ((updateKinematics fastPlayer (Num.fin (1 / 2))).player.velocity.x =
      Num.fin (min |integratedVelocityX 11 [(80, 0), (0, -196)] 10 (1 / 2)| |12| *
        (SignType.sign (integratedVelocityX 11 [(80, 0), (0, -196)] 10 (1 / 2) + 1) : ℚ)) ∧
    (integratedVelocityX 11 [(80, 0), (0, -196)] 10 (1 / 2) < -1 ∨
        0 ≤ integratedVelocityX 11 [(80, 0), (0, -196)] 10 (1 / 2) →
      (updateKinematics fastPlayer (Num.fin (1 / 2))).player.velocity.x =
        Num.fin (specCapX (integratedVelocityX 11 [(80, 0), (0, -196)] 10 (1 / 2)) 12)) ∧
    (-1 < integratedVelocityX 11 [(80, 0), (0, -196)] 10 (1 / 2) →
      integratedVelocityX 11 [(80, 0), (0, -196)] 10 (1 / 2) < 0 →
      (updateKinematics fastPlayer (Num.fin (1 / 2))).player.velocity.x =
        Num.fin (min |integratedVelocityX 11 [(80, 0), (0, -196)] 10 (1 / 2)| |12|))) :=
  ⟨by norm_num [integratedVelocityX],
    updateKinematics_cap_formula fastPlayer [(80, 0), (0, -196)] 11 (-30) 10 (1 / 2) 12
      rfl rfl (by simp [fastPlayer, withMotion, setUp]) (by simp [fastPlayer, withMotion, setUp])
      (by norm_num) (by norm_num [integratedVelocityX])⟩

/-- C8. Forces are drained: for every state and every deltaTime (`NaN`
included), after `updateKinematics` the `activeForces` of the player and of
the camera are empty. -/
theorem updateKinematics_drains_forces (state : State) (deltaTime : Num) :
    (updateKinematics state deltaTime).player.activeForces = [] ∧
    (updateKinematics state deltaTime).camera.activeForces = [] :=
  ⟨rfl, rfl⟩

/-- C9. Camera smoothing: for a state with finite player and camera data, a
non-zero mass and an integrated velocity.x other than -1, whatever the forces
and whatever deltaTime, one `updateKinematics` call moves the camera from `c`
to `c + (T - c) / 10`, where `T = player.position + (10, 0)` is the target the
code computes (from the player's position as the same call has just left it;
for a player at rest with no force that is the position before the call). The
camera's offset from `T` becomes 9/10 of what it was, and deltaTime does not
enter the camera step. -/
theorem updateKinematics_camera_smoothing (state : State) (fs : List (ℚ × ℚ))
    (vx vy m dt capx px py cx cy : ℚ)
    (hf : state.player.activeForces = forcesOfRat fs)
    (hv : state.player.velocity = Vec2.ofRat vx vy)
    (hm : state.player.mass = Num.fin m)
    (hcap : state.player.velocityCap.x = Num.fin capx)
    (hp : state.player.position = Vec2.ofRat px py)
    (hc : state.camera.position = Vec2.ofRat cx cy)
    (hmass : m ≠ 0)
    (hne : integratedVelocityX vx fs m dt ≠ -1) :
    ∃ tx ty : ℚ,
      (updateKinematics state (Num.fin dt)).player.position.add ⟨10, 0⟩ = Vec2.ofRat tx ty ∧
      (updateKinematics state (Num.fin dt)).camera.position =
        Vec2.ofRat (cx + (tx - cx) / 10) (cy + (ty - cy) / 10) ∧
      (cx + (tx - cx) / 10) - tx = 9 / 10 * (cx - tx) ∧
      (cy + (ty - cy) / 10) - ty = 9 / 10 * (cy - ty) ∧
      (fs = [] → vx = 0 → vy = 0 → tx = px + 10 ∧ ty = py) := by
  have hpos := updateKinematics_position state fs vx vy m dt capx px py hf hv hm hcap hp
    hmass hne
  have ht : (updateKinematics state (Num.fin dt)).player.position.add ⟨10, 0⟩ =
      Vec2.ofRat (px + fixupCapX (integratedVelocityX vx fs m dt) capx * dt + 10)
        (py + integratedVelocityY vy fs m dt * dt) := by
    rw [hpos]
    simp [Vec2.add, Vec2.ofRat]
  refine ⟨_, _, ht, ?_, by ring, by ring, ?_⟩
  · rw [updateKinematics_camera_position, ht, hc]
    simp [Vec2.addScaledVector, Vec2.sub, Vec2.ofRat, div_eq_mul_inv]
  · intro h1 h2 h3
    subst h1 h2 h3
    simp [fixupCapX, integratedVelocityX, integratedVelocityY]

/-- C9 at a concrete frame: camera and player at the origin, the player at
11 m/s under the thrust (80, 0), deltaTime 1/2. -/
theorem updateKinematics_camera_smoothing_witness :
    integratedVelocityX 11 [(80, 0), (0, -196)] 10 (1 / 2) ≠ -1 ∧
    ∃ tx ty : ℚ,
      (updateKinematics fastPlayer (Num.fin (1 / 2))).player.position.add ⟨10, 0⟩ =
        Vec2.ofRat tx ty ∧
      (updateKinematics fastPlayer (Num.fin (1 / 2))).camera.position =
        Vec2.ofRat (0 + (tx - 0) / 10) (0 + (ty - 0) / 10) ∧
      (0 + (tx - 0) / 10) - tx = 9 / 10 * (0 - tx) ∧
      (0 + (ty - 0) / 10) - ty = 9 / 10 * (0 - ty) ∧
      (([(80, 0), (0, -196)] : List (ℚ × ℚ)) = [] → (11 : ℚ) = 0 → (-30 : ℚ) = 0 →
        tx = 0 + 10 ∧ ty = 0) :=
  ⟨by norm_num [integratedVelocityX],
    updateKinematics_camera_smoothing fastPlayer [(80, 0), (0, -196)] 11 (-30) 10 (1 / 2) 12
      0 0 0 0 rfl rfl (by simp [fastPlayer, withMotion, setUp])
      (by simp [fastPlayer, withMotion, setUp])
      (by simp [fastPlayer, withMotion, setUp, Vec2.zero, Vec2.ofRat])
      (by simp [fastPlayer, withMotion, setUp, Vec2.zero, Vec2.ofRat])
      (by norm_num) (by norm_num [integratedVelocityX])⟩

/-- C10. Player integration: for a player with finite position, velocity,
forces and cap and a non-zero mass (in particular > 0) and every finite
deltaTime (in particular > 0), with `F` the sum of the active forces,
`a = F / mass` and `v1 = velocity + a * deltaTime`, `updateKinematics` stores
velocity.y = v1.y whatever `velocityCap.y` is, velocity.x = the capped v1.x, and
position = old position + stored velocity * deltaTime; when v1.x is not -1
the capped v1.x is the number `min(|v1.x|, |cap.x|) * ((v1.x + 1) / |v1.x + 1|)`. -/
theorem updateKinematics_player_integration (state : State) (fs : List (ℚ × ℚ))
    (vx vy m dt capx px py : ℚ)
    (hf : state.player.activeForces = forcesOfRat fs)
    (hv : state.player.velocity = Vec2.ofRat vx vy)
    (hm : state.player.mass = Num.fin m)
    (hcap : state.player.velocityCap.x = Num.fin capx)
    (hp : state.player.position = Vec2.ofRat px py)
    (hmass : m ≠ 0) :
    (updateKinematics state (Num.fin dt)).player.velocity.y =
      Num.fin (vy + (fs.map Prod.snd).sum / m * dt) ∧
    (updateKinematics state (Num.fin dt)).player.velocity.x =
      capVelocityX (Num.fin (vx + (fs.map Prod.fst).sum / m * dt)) (Num.fin capx) ∧
    (updateKinematics state (Num.fin dt)).player.position.y =
      Num.fin (py + (vy + (fs.map Prod.snd).sum / m * dt) * dt) ∧
    (updateKinematics state (Num.fin dt)).player.position.x =
      Num.fin px + (updateKinematics state (Num.fin dt)).player.velocity.x * Num.fin dt ∧
    (vx + (fs.map Prod.fst).sum / m * dt ≠ -1 →
      (updateKinematics state (Num.fin dt)).player.velocity.x =
        Num.fin (fixupCapX (vx + (fs.map Prod.fst).sum / m * dt) capx) ∧
      (updateKinematics state (Num.fin dt)).player.position.x =
        Num.fin (px + fixupCapX (vx + (fs.map Prod.fst).sum / m * dt) capx * dt)) := by
  have hx := updateKinematics_velocity_x state fs vx vy m dt capx hf hv hm hcap hmass
  have hy := updateKinematics_velocity_y state fs vx vy m dt capx hf hv hm hcap hmass
  have hposy : (updateKinematics state (Num.fin dt)).player.position.y =
      state.player.position.y +
        (updateKinematics state (Num.fin dt)).player.velocity.y * Num.fin dt := rfl
  have hposx : (updateKinematics state (Num.fin dt)).player.position.x =
      state.player.position.x +
        (updateKinematics state (Num.fin dt)).player.velocity.x * Num.fin dt := rfl
  refine ⟨hy, hx, ?_, ?_, fun hne => ⟨?_, ?_⟩⟩
  · rw [hposy, hy, hp]
    rfl
  · rw [hposx, hp]
    rfl
  · rw [hx]
    exact capVelocityX_fin _ _ hne
  · have h := updateKinematics_position state fs vx vy m dt capx px py hf hv hm hcap hp
      hmass hne
    rw [h]
    rfl

/-- C10 at a concrete frame: the player at (11, -30) m/s under the forces
(80, 0) and (0, -196), mass 10, deltaTime 1/2; `|v1.y| = 39.8` exceeds
`velocityCap.y = 20` and is stored as it is. -/
theorem updateKinematics_player_integration_witness :
    (updateKinematics fastPlayer (Num.fin (1 / 2))).player.velocity.y =
      Num.fin (-30 + (([(80, 0), (0, -196)] : List (ℚ × ℚ)).map Prod.snd).sum / 10 * (1 / 2)) ∧
    (updateKinematics fastPlayer (Num.fin (1 / 2))).player.velocity.x =
      capVelocityX
        (Num.fin (11 + (([(80, 0), (0, -196)] : List (ℚ × ℚ)).map Prod.fst).sum / 10 * (1 / 2)))
        (Num.fin 12) ∧
    (updateKinematics fastPlayer (Num.fin (1 / 2))).player.position.y =
      Num.fin (0 + (-30 + (([(80, 0), (0, -196)] : List (ℚ × ℚ)).map Prod.snd).sum / 10
        * (1 / 2)) * (1 / 2)) ∧
    (updateKinematics fastPlayer (Num.fin (1 / 2))).player.position.x =
      Num.fin 0 + (updateKinematics fastPlayer (Num.fin (1 / 2))).player.velocity.x
        * Num.fin (1 / 2) ∧
    (11 + (([(80, 0), (0, -196)] : List (ℚ × ℚ)).map Prod.fst).sum / 10 * (1 / 2) ≠ -1 →
      (updateKinematics fastPlayer (Num.fin (1 / 2))).player.velocity.x =
        Num.fin (fixupCapX
          (11 + (([(80, 0), (0, -196)] : List (ℚ × ℚ)).map Prod.fst).sum / 10 * (1 / 2)) 12) ∧
      (updateKinematics fastPlayer (Num.fin (1 / 2))).player.position.x =
        Num.fin (0 + fixupCapX
          (11 + (([(80, 0), (0, -196)] : List (ℚ × ℚ)).map Prod.fst).sum / 10 * (1 / 2)) 12
          * (1 / 2))) :=
  updateKinematics_player_integration fastPlayer [(80, 0), (0, -196)] 11 (-30) 10 (1 / 2) 12
    0 0 rfl rfl (by simp [fastPlayer, withMotion, setUp])
    (by simp [fastPlayer, withMotion, setUp])
    (by simp [fastPlayer, withMotion, setUp, Vec2.zero, Vec2.ofRat]) (by norm_num)

/-! ## Facts about typed arrays and the worm blocks -/

theorem Float32Array.length_set (a : Float32Array) (i : Nat) (v : Num) :
    (a.set i v).length = a.length := by
  unfold Float32Array.set
  split_ifs <;> rfl

theorem Float32Array.get_set (a : Float32Array) (i : Nat) (v : Num) (j : Nat) :
    (a.set i v).get j = if i < a.length ∧ j = i then v else a.get j := by
  unfold Float32Array.set
  by_cases h : i < a.length
  · by_cases h2 : j = i <;> simp [h, h2]
  · simp [h]

theorem setWormPartData_wormData_length (u : Uniforms) (pos : Vec2) (r : Num) (k : Nat) :
    (setWormPartData u pos r k).wormData.length = u.wormData.length := by
  unfold setWormPartData
  split_ifs <;> simp [Float32Array.length_set]

theorem setWormPartData_wormData2_length (u : Uniforms) (pos : Vec2) (r : Num) (k : Nat) :
    (setWormPartData u pos r k).wormData2.length = u.wormData2.length := by
  unfold setWormPartData
  split_ifs <;> simp [Float32Array.length_set]

theorem mapStateToUniforms_wormData_length (env : Env) (state : State) (u : Uniforms) :
    (mapStateToUniforms env state u).wormData.length = u.wormData.length := by
  simp [mapStateToUniforms, List.range, List.range.loop, setWormPartData_wormData_length]

theorem mapStateToUniforms_wormData2_length (env : Env) (state : State) (u : Uniforms) :
    (mapStateToUniforms env state u).wormData2.length = u.wormData2.length := by
  simp [mapStateToUniforms, List.range, List.range.loop, setWormPartData_wormData2_length]

theorem mapStateToUniforms_wormData_get (env : Env) (state : State) (u : Uniforms)
    (hw : u.wormData.length = 16) (i : Nat) (hi : i < 16) :
    (mapStateToUniforms env state u).wormData.get i =
      if i % 4 = 0 then
        (wormPartPosition env state (cameraTransform env state.player.position) (i / 4)).x
      else if i % 4 = 1 then
        (wormPartPosition env state (cameraTransform env state.player.position) (i / 4)).y
      else if i % 4 = 2 then 0
      else u.wormData.get i := by
  interval_cases i <;>
    simp [mapStateToUniforms, List.range, List.range.loop, setWormPartData,
      Float32Array.get_set, Float32Array.length_set, hw]

theorem mapStateToUniforms_wormData2_get (env : Env) (state : State) (u : Uniforms)
    (hw : u.wormData2.length = 16) (i : Nat) (hi : i < 16) :
    (mapStateToUniforms env state u).wormData2.get i =
      if 8 ≤ i then u.wormData2.get i
      else if i % 4 = 0 then
        (wormPartPosition env state (cameraTransform env state.player.position) (i / 4 + 4)).x
      else if i % 4 = 1 then
        (wormPartPosition env state (cameraTransform env state.player.position) (i / 4 + 4)).y
      else if i % 4 = 2 then 0
      else u.wormData2.get i := by
  interval_cases i <;>
    simp [mapStateToUniforms, List.range, List.range.loop, setWormPartData,
      Float32Array.get_set, Float32Array.length_set, hw]

/-! ## Facts about the history ring over a run -/

theorem historyIndex_lt (x : Num) (n : Int) (h : historyIndex x = some n) :
    -1000 < n ∧ n < 1000 := by
  cases x with
  | nan => exact absurd h (by simp [historyIndex])
  | fin q =>
    have hb := tmod_thousand_bounds ⌊q⌋
    have e : Int.tmod ⌊q⌋ 1000 = n := Option.some.inj h
    rw [← e]
    exact ⟨hb.1, hb.2.1⟩

theorem historyIndex_of_nonneg (x : ℚ) (hx : 0 ≤ x) :
    ∃ n : Int, historyIndex (Num.fin x) = some n ∧ 0 ≤ n ∧ n < 1000 := by
  have hb := tmod_thousand_bounds ⌊x⌋
  exact ⟨Int.tmod ⌊x⌋ 1000, rfl, hb.2.2.1 (Int.floor_nonneg.mpr hx), hb.2.1⟩

theorem updatePlayerYHistory_length (state : State) (pos : Vec2) (p n : Int)
    (hp : state.yHistoryIndex = some p) (hn : historyIndex pos.x = some n) :
    (updatePlayerYHistory state pos).playerYHistory.length =
      if 0 ≤ n then max state.playerYHistory.length (n + 1).toNat
      else state.playerYHistory.length := by
  by_cases h : p > n
  · exact updatePlayerYHistory_length_wrap state pos p n hp hn h
  · exact updatePlayerYHistory_length_nowrap state pos p n hp hn (by omega)

theorem updatePlayerYHistory_length_of_nan (state : State) (pos : Vec2)
    (h : state.yHistoryIndex = none ∨ historyIndex pos.x = none) :
    (updatePlayerYHistory state pos).playerYHistory.length = state.playerYHistory.length := by
  rcases h with h | h
  · simp [updatePlayerYHistory, h]
  · cases hc : state.yHistoryIndex <;> simp [updatePlayerYHistory, h, hc]

theorem updatePlayerYHistory_length_bounds (state : State) (pos : Vec2) :
    state.playerYHistory.length ≤ (updatePlayerYHistory state pos).playerYHistory.length ∧
    (state.playerYHistory.length ≤ 1000 →
      (updatePlayerYHistory state pos).playerYHistory.length ≤ 1000) := by
  cases hc : state.yHistoryIndex with
  | none =>
    rw [updatePlayerYHistory_length_of_nan state pos (Or.inl hc)]
    exact ⟨le_refl _, fun h => h⟩
  | some p =>
    cases hn : historyIndex pos.x with
    | none =>
      rw [updatePlayerYHistory_length_of_nan state pos (Or.inr hn)]
      exact ⟨le_refl _, fun h => h⟩
    | some n =>
      have hb := historyIndex_lt pos.x n hn
      rw [updatePlayerYHistory_length state pos p n hc hn]
      split_ifs with h0
      · exact ⟨le_max_left _ _, fun h => max_le h (by omega)⟩
      · exact ⟨le_refl _, fun h => h⟩

theorem recordFrom_append (state : State) (calls : List Vec2) (pos : Vec2) :
    recordFrom state (calls ++ [pos]) = updatePlayerYHistory (recordFrom state calls) pos := by
  simp [recordFrom, List.foldl_append]

theorem recordFrom_length_le (calls : List Vec2) (state : State)
    (h : state.playerYHistory.length ≤ 1000) :
    (recordFrom state calls).playerYHistory.length ≤ 1000 := by
  induction calls generalizing state with
  | nil => exact h
  | cons pos rest ih =>
    exact ih (updatePlayerYHistory state pos)
      ((updatePlayerYHistory_length_bounds state pos).2 h)

theorem updatePlayerYHistory_historyOk (state : State) (x y : ℚ) (hs : HistoryOk state)
    (hx : 0 ≤ x) :
    HistoryOk (updatePlayerYHistory state (Vec2.ofRat x y)) ∧
    ∃ n : Int, (updatePlayerYHistory state (Vec2.ofRat x y)).yHistoryIndex = some n ∧ 0 ≤ n ∧
      n < (updatePlayerYHistory state (Vec2.ofRat x y)).playerYHistory.length ∧
      (updatePlayerYHistory state (Vec2.ofRat x y)).playerYHistory.slot n = some (Num.fin y) := by
  obtain ⟨hlen, hslots, p, hp, hp0, hple⟩ := hs
  obtain ⟨n, hn, hn0, hn1⟩ := historyIndex_of_nonneg x hx
  have hn' : historyIndex (Vec2.ofRat x y).x = some n := hn
  have hcur : (updatePlayerYHistory state (Vec2.ofRat x y)).yHistoryIndex = some n := by
    rw [updatePlayerYHistory_cursor]
    exact hn'
  have hL := updatePlayerYHistory_length state (Vec2.ofRat x y) p n hp hn'
  rw [if_pos hn0] at hL
  have hslot : ∀ j : Int, (updatePlayerYHistory state (Vec2.ofRat x y)).playerYHistory.slot j =
      if (p > n ∧ ((0 ≤ j ∧ j ≤ n) ∨ (p ≤ j ∧ j < state.playerYHistory.length))) ∨
          (p ≤ n ∧ p ≤ j ∧ j ≤ n) then some (Num.fin y)
      else state.playerYHistory.slot j := by
    intro j
    by_cases h : p > n
    · rw [updatePlayerYHistory_slot_wrap state _ p n hp hn' h]
      by_cases hc : (0 ≤ j ∧ j ≤ n) ∨ (p ≤ j ∧ j < state.playerYHistory.length)
      · rw [if_pos hc, if_pos (Or.inl ⟨h, hc⟩)]
        rfl
      · rw [if_neg hc, if_neg]
        rintro (⟨_, h2⟩ | ⟨h2, _⟩)
        · exact hc h2
        · omega
    · have hle : p ≤ n := by omega
      rw [updatePlayerYHistory_slot_nowrap state _ p n hp hn' hle]
      by_cases hc : p ≤ j ∧ j ≤ n
      · rw [if_pos hc, if_pos (Or.inr ⟨hle, hc⟩)]
        rfl
      · rw [if_neg hc, if_neg]
        rintro (⟨h2, _⟩ | ⟨_, h2⟩)
        · exact h h2
        · exact hc h2
  have hch : (updatePlayerYHistory state (Vec2.ofRat x y)).playerYHistory.length =
        state.playerYHistory.length ∨
      (updatePlayerYHistory state (Vec2.ofRat x y)).playerYHistory.length = (n + 1).toNat := by
    rw [hL]
    exact max_choice _ _
  have hge1 : state.playerYHistory.length ≤
      (updatePlayerYHistory state (Vec2.ofRat x y)).playerYHistory.length := by
    rw [hL]
    exact le_max_left _ _
  have hge2 : (n + 1).toNat ≤
      (updatePlayerYHistory state (Vec2.ofRat x y)).playerYHistory.length := by
    rw [hL]
    exact le_max_right _ _
  have hnlt : n < (updatePlayerYHistory state (Vec2.ofRat x y)).playerYHistory.length := by
    omega
  refine ⟨⟨?_, ?_, n, hcur, hn0, le_of_lt hnlt⟩, n, hcur, hn0, hnlt, ?_⟩
  · rcases hch with h | h
    · rw [h]
      exact hlen
    · rw [h]
      omega
  · intro i hi0 hi1
    rw [hslot i]
    split_ifs with hc
    · exact ⟨y, rfl⟩
    · apply hslots i hi0
      by_contra hge
      apply hc
      rcases le_or_lt p n with hpn | hpn
      · exact Or.inr ⟨hpn, by omega, by omega⟩
      · exfalso
        omega
  · rw [hslot n]
    rw [if_pos]
    rcases le_or_lt p n with hpn | hpn
    · exact Or.inr ⟨hpn, hpn, le_refl _⟩
    · exact Or.inl ⟨hpn, Or.inl ⟨hn0, le_refl _⟩⟩

theorem setUp_historyOk (p c : Vec2) : HistoryOk (setUp p c) :=
  ⟨by simp [setUp, JSArray.empty], fun i h0 h1 => absurd h1 (by simp [setUp, JSArray.empty]; omega),
    0, rfl, le_refl _, by simp [setUp, JSArray.empty]⟩

theorem recordFrom_historyOk (calls : List (ℚ × ℚ)) (state : State) (hs : HistoryOk state)
    (hx : ∀ c ∈ calls, 0 ≤ c.1) :
    HistoryOk (recordFrom state (finitePositions calls)) := by
  induction calls generalizing state with
  | nil => exact hs
  | cons c rest ih =>
    have h1 := (updatePlayerYHistory_historyOk state c.1 c.2 hs (hx c (by simp))).1
    exact ih (updatePlayerYHistory state (Vec2.ofRat c.1 c.2)) h1
      (fun d hd => hx d (by simp [hd]))

/-! ## Facts about the forces and the frame -/

theorem gravityForceMagnitude_fin (m : ℚ) :
    gravityForceMagnitude (Num.fin m) = Num.fin (gravityRat m) := by
  have h : ((6380000 : ℚ) ^ 2) ≠ 0 := by norm_num
  simp only [gravityForceMagnitude, Num.pow, Num.fin_mul, Num.fin_div_of_ne _ h, gravityRat]

theorem smoothstep_at_zero : smoothstep 0 3 (Num.fin 0) = Num.fin 0 := by
  simp [smoothstep]

theorem smoothstep_of_three_le (u : ℚ) (hu : 3 ≤ u) : smoothstep 0 3 (Num.fin u) = Num.fin 1 := by
  have h1 : (1 : ℚ) ≤ u / 3 := by
    rw [le_div_iff₀ (by norm_num)]
    linarith
  simp only [smoothstep, Num.ofNat_eq]
  norm_num [min_eq_left h1]

theorem assignEnvironmentalForces_forces (env : Env) (state : State) :
    (assignEnvironmentalForces env state).player.activeForces =
      state.player.activeForces ++
        ([⟨0, -gravityForceMagnitude state.player.mass * 2 * env.smoothstep 0 3 state.time⟩,
          ⟨80, 0⟩] ++
          (if state.keyStates.ArrowUp then [⟨0, 500 * env.smoothstep 0 3 state.time⟩] else [])) := by
  unfold assignEnvironmentalForces
  cases state.keyStates.ArrowUp <;> simp

theorem updates_unfocused (env : Env) (calls : List (Num × Num)) (t : Transformer)
    (h : t.focused = false) : updates env t calls = t := by
  induction calls with
  | nil => rfl
  | cons c rest ih =>
    have h1 : update env t c.1 c.2 = t := by simp [update, h]
    simp only [updates, List.foldl_cons, h1]
    exact ih

theorem wormPartPosition_eq (env : Env) (state : State) (playerPos : Vec2) (k : Nat) :
    wormPartPosition env state playerPos k =
      ⟨playerPos.x - Num.fin (80 * k),
        getPastPlayerY state (initialPlayerY env) (playerPos.x - Num.fin (80 * k))⟩ := by
  have hx : playerPos.x + (-Num.fin WORM_BLOCK_SPACING) * Num.fin (k : ℚ) =
      playerPos.x - Num.fin (80 * k) := by
    have hneg : -Num.fin WORM_BLOCK_SPACING = Num.fin (-80) := by
      show Num.neg (Num.fin _) = _
      simp [Num.neg, WORM_BLOCK_SPACING]
    rw [hneg]
    cases playerPos.x with
    | nan => rfl
    | fin a =>
      simp only [Num.fin_mul, Num.fin_add, Num.fin_sub]
      congr 1
      ring
  simp only [wormPartPosition, hx]

theorem mapStateToUniforms_blocksOk (env : Env) (state : State) (u : Uniforms)
    (h : BlocksOk u) : BlocksOk (mapStateToUniforms env state u) := by
  obtain ⟨hw, hw2, h1, h2⟩ := h
  refine ⟨by rw [mapStateToUniforms_wormData_length, hw],
    by rw [mapStateToUniforms_wormData2_length, hw2], fun i hi hm => ?_, fun i hi hm => ?_⟩
  · rw [mapStateToUniforms_wormData_get env state u hw i hi]
    rcases hm with hm | hm
    · simp [hm]
    · simp [hm, h1 i hi (Or.inr hm)]
  · rw [mapStateToUniforms_wormData2_get env state u hw2 i hi]
    by_cases h8 : 8 ≤ i
    · simp [h8, h2 i hi (Or.inr (Or.inr h8))]
    · rcases hm with hm | hm | hm
      · simp [h8, hm]
      · simp [h8, hm, h2 i hi (Or.inr (Or.inl hm))]
      · exact absurd hm h8

theorem setUpUniforms_blocksOk : BlocksOk setUpUniforms :=
  ⟨rfl, rfl, fun _ _ _ => rfl, fun _ _ _ => rfl⟩

theorem foldl_mapStateToUniforms_blocksOk (env : Env) (states : List State) (u : Uniforms)
    (h : BlocksOk u) :
    BlocksOk (states.foldl (fun u s => mapStateToUniforms env s u) u) := by
  induction states generalizing u with
  | nil => exact h
  | cons s rest ih => exact ih _ (mapStateToUniforms_blocksOk env s u h)

theorem caveSamples_match_of_ratio_one (env : Env) (k : Nat)
    (hw : env.canvasWidth = Num.fin (8 * k)) (hd : env.devicePixelRatio = Num.fin 1) :
    loopRounds (texelCount env) = k ∧
    (getCaveDataTexture env).map Float32Array.length = some k := by
  have e : (8 * (k : ℚ)) / 8 = k := by field_simp
  constructor
  · simp [texelCount, hw, hd, CAVE_SAMPLE_DIST, loopRounds, e]
  · have hk : ¬ ((k : ℚ) ≤ -1) := by
      have : (0 : ℚ) ≤ k := Nat.cast_nonneg k
      linarith
    simp [getCaveDataTexture, hw, CAVE_SAMPLE_DIST, typedArrayLength, e, hk, Float32Array.zeros]

theorem runFrame_time (env : Env) (t : Transformer) (f : Frame) :
    (runFrame env t f).state.time =
      if f.focused = true then Num.fin (f.time / 1000) else t.state.time := by
  have h : Num.fin f.time / 1000 = Num.fin (f.time / 1000) := by
    simp only [Num.ofNat_eq, Nat.cast_ofNat]
    exact Num.fin_div_of_ne _ (by norm_num)
  cases hf : f.focused
  · simp [runFrame, update, hf]
  · simp [runFrame, update, hf, h]

theorem runFrames_append (env : Env) (t : Transformer) (frames : List Frame) (f : Frame) :
    runFrames env t (frames ++ [f]) = runFrame env (runFrames env t frames) f := by
  simp [runFrames, List.foldl_append]

theorem runFrames_time (env : Env) (frames : List Frame) (t : Transformer) (τ0 : ℚ)
    (h0 : t.state.time = Num.fin τ0) (hτ : 0 ≤ τ0) (hn : ∀ g ∈ frames, 0 ≤ g.time) :
    ∃ τ : ℚ, (runFrames env t frames).state.time = Num.fin τ ∧ 0 ≤ τ ∧
      ∀ b : ℚ, τ0 ≤ b / 1000 → (∀ g ∈ frames, g.time ≤ b) → τ ≤ b / 1000 := by
  induction frames generalizing t τ0 with
  | nil => exact ⟨τ0, h0, hτ, fun b hb _ => hb⟩
  | cons f rest ih =>
    have hf0 : 0 ≤ f.time := hn f (by simp)
    have hstep := runFrame_time env t f
    by_cases hfoc : f.focused = true
    · rw [if_pos hfoc] at hstep
      obtain ⟨τ, h1, h2, h3⟩ := ih (runFrame env t f) (f.time / 1000) hstep
        (div_nonneg hf0 (by norm_num)) (fun g hg => hn g (by simp [hg]))
      refine ⟨τ, h1, h2, fun b _ hall => h3 b ?_ (fun g hg => hall g (by simp [hg]))⟩
      exact div_le_div_of_nonneg_right (hall f (by simp)) (by norm_num)
    · rw [if_neg hfoc, h0] at hstep
      obtain ⟨τ, h1, h2, h3⟩ := ih (runFrame env t f) τ0 hstep hτ
        (fun g hg => hn g (by simp [hg]))
      exact ⟨τ, h1, h2, fun b hb hall => h3 b hb (fun g hg => hall g (by simp [hg]))⟩

theorem getPastPlayerY_after_update (state : State) (p : Int) (x y : ℚ) (fallback : Num)
    (hp : state.yHistoryIndex = some p) (hx : 0 ≤ x) :
    getPastPlayerY (updatePlayerYHistory state (Vec2.ofRat x y)) fallback (Num.fin x) =
      Num.fin y := by
  obtain ⟨n, hn, hn0, _⟩ := historyIndex_of_nonneg x hx
  have hn' : historyIndex (Vec2.ofRat x y).x = some n := hn
  have hslot : (updatePlayerYHistory state (Vec2.ofRat x y)).playerYHistory.slot n =
      some (Num.fin y) := by
    by_cases h : p > n
    · rw [updatePlayerYHistory_slot_wrap state _ p n hp hn' h, if_pos (Or.inl ⟨hn0, le_refl _⟩)]
      rfl
    · rw [updatePlayerYHistory_slot_nowrap state _ p n hp hn' (by omega),
        if_pos ⟨by omega, le_refl _⟩]
      rfl
  simp only [getPastPlayerY, hn, JSArray.read, hslot]

theorem recordFrom_finite_cursor (calls : List (ℚ × ℚ)) (state : State)
    (hs : ∃ p : Int, state.yHistoryIndex = some p) :
    ∃ p : Int, (recordFrom state (finitePositions calls)).yHistoryIndex = some p := by
  induction calls generalizing state with
  | nil => exact hs
  | cons c rest ih =>
    exact ih (updatePlayerYHistory state (Vec2.ofRat c.1 c.2))
      ⟨Int.tmod ⌊c.1⌋ Y_HISTORY_LENGTH, rfl⟩

theorem update_head_segment (env : Env) (t : Transformer) (time dt : Num) (x y : ℚ)
    (hf : t.focused = true) (hw : t.uniforms.wormData.length = 16)
    (hc : ∃ p : Int, t.state.yHistoryIndex = some p)
    (hpos : cameraTransform env (update env t time dt).state.player.position = Vec2.ofRat x y)
    (hx : 0 ≤ x) :
    (update env t time dt).uniforms.wormData.get 0 = Num.fin x ∧
    (update env t time dt).uniforms.wormData.get 1 = Num.fin y := by
  obtain ⟨p, hp⟩ := hc
  have hst : (update env t time dt).state =
      { updateWorm env (updateKinematics (assignEnvironmentalForces env t.state) dt) with
        time := time / 1000 } := by
    simp [update, hf]
  have hun : (update env t time dt).uniforms =
      mapStateToUniforms env (update env t time dt).state t.uniforms := by
    simp [update, hf]
  have hpl : (update env t time dt).state.player =
      (updateKinematics (assignEnvironmentalForces env t.state) dt).player := by
    rw [hst]
    rfl
  have hpos2 : cameraTransform env
      (updateKinematics (assignEnvironmentalForces env t.state) dt).player.position =
        Vec2.ofRat x y := by
    rw [← hpl]
    exact hpos
  have hcur : (updateKinematics (assignEnvironmentalForces env t.state) dt).yHistoryIndex =
      some p := hp
  have hget : ∀ fb : Num, getPastPlayerY (update env t time dt).state fb (Num.fin x) =
      Num.fin y := by
    intro fb
    have h1 := getPastPlayerY_after_update
      (updateKinematics (assignEnvironmentalForces env t.state) dt) p x y fb hcur hx
    have h2 : getPastPlayerY (update env t time dt).state fb (Num.fin x) =
        getPastPlayerY (updatePlayerYHistory
          (updateKinematics (assignEnvironmentalForces env t.state) dt) (Vec2.ofRat x y)) fb
          (Num.fin x) := by
      rw [hst]
      simp only [getPastPlayerY, updateWorm, hpos2]
    rw [h2, h1]
  have hx0 : (Vec2.ofRat x y).x - Num.fin (80 * ((0 : Nat) : ℚ)) = Num.fin x := by
    simp [Vec2.ofRat]
  rw [hun, mapStateToUniforms_wormData_get env _ _ hw 0 (by norm_num),
    mapStateToUniforms_wormData_get env _ _ hw 1 (by norm_num), wormPartPosition_eq, hpos, hx0]
  exact ⟨by simp, by simpa using hget _⟩

theorem finitePositions_append (calls : List (ℚ × ℚ)) (c : ℚ × ℚ) :
    finitePositions (calls ++ [c]) = finitePositions calls ++ [Vec2.ofRat c.1 c.2] := by
  simp [finitePositions]

theorem assignEnvironmentalForces_forces_fin (env : Env) (state : State) (m r : ℚ)
    (hm : state.player.mass = Num.fin m)
    (hr : env.smoothstep 0 3 state.time = Num.fin r) :
    (assignEnvironmentalForces env state).player.activeForces =
      state.player.activeForces ++
        ([Vec2.ofRat 0 (-2 * gravityRat m * r), Vec2.ofRat 80 0] ++
          (if state.keyStates.ArrowUp then [Vec2.ofRat 0 (500 * r)] else [])) := by
  rw [assignEnvironmentalForces_forces, hm, hr, gravityForceMagnitude_fin]
  have e1 : (⟨0, -Num.fin (gravityRat m) * 2 * Num.fin r⟩ : Vec2) =
      Vec2.ofRat 0 (-2 * gravityRat m * r) := by
    have : -Num.fin (gravityRat m) = Num.fin (-gravityRat m) := rfl
    simp only [this, Num.ofNat_eq, Num.fin_mul, Vec2.ofRat, Nat.cast_ofNat, Nat.cast_zero]
    congr 2
    ring
  have e2 : (⟨80, 0⟩ : Vec2) = Vec2.ofRat 80 0 := by
    simp [Vec2.ofRat]
  have e3 : (⟨0, 500 * Num.fin r⟩ : Vec2) = Vec2.ofRat 0 (500 * r) := by
    simp [Vec2.ofRat]
  rw [e1, e2, e3]

theorem setUpTransformer_start (env : Env) (t : Transformer)
    (h : setUpTransformer env = some t) :
    t.state.time = Num.fin 0 ∧ t.focused = true ∧ t.uniforms = setUpUniforms ∧
      t.state.playerYHistory.length = 0 ∧ t.state.yHistoryIndex = some 0 := by
  unfold setUpTransformer at h
  cases hc : getCaveDataTexture env with
  | none => simp [hc] at h
  | some tex =>
    simp only [hc, Option.map_some', Option.some.injEq] at h
    subst h
    exact ⟨by simp [setUp], rfl, rfl, rfl, rfl⟩

/-! ## The claims, continued -/

/-- C11. Force assignment appends: for a player of finite mass `m` and a
finite ramp `r = smoothstep(0, 3, state.time)`, `assignEnvironmentalForces`
keeps the forces already in `player.activeForces` in place and in order and
appends after them the gravity force `(0, -2 * (G*M*m/R^2) * r)`, then the
thrust `(80, 0)`, then the upward force `(0, 500 * r)` if and only if
`keyStates.ArrowUp` is held; the rest of the state (the camera and its forces
included) is as before. -/
theorem assignEnvironmentalForces_appends (env : Env) (state : State) (m r : ℚ)
    (hm : state.player.mass = Num.fin m)
    (hr : env.smoothstep 0 3 state.time = Num.fin r) :
    (assignEnvironmentalForces env state).player.activeForces =
      state.player.activeForces ++
        ([Vec2.ofRat 0 (-2 * gravityRat m * r), Vec2.ofRat 80 0] ++
          (if state.keyStates.ArrowUp then [Vec2.ofRat 0 (500 * r)] else [])) ∧
    assignEnvironmentalForces env state =
      { state with player := { state.player with
          activeForces := (assignEnvironmentalForces env state).player.activeForces } } ∧
    (assignEnvironmentalForces env state).camera = state.camera := by
  exact ⟨assignEnvironmentalForces_forces_fin env state m r hm hr, rfl, rfl⟩

/-- C11 at a concrete state: `lateGame` has two forces queued, mass 10, time 5
and the up key held; with the ramp at 1 the call appends gravity, thrust and
the upward force after the two queued forces. -/
theorem assignEnvironmentalForces_appends_witness :
    (assignEnvironmentalForces sampleEnv lateGame).player.activeForces =
      lateGame.player.activeForces ++
        ([Vec2.ofRat 0 (-2 * gravityRat 10 * 1), Vec2.ofRat 80 0] ++
          (if lateGame.keyStates.ArrowUp then [Vec2.ofRat 0 (500 * 1)] else [])) ∧
    assignEnvironmentalForces sampleEnv lateGame =
      { lateGame with player := { lateGame.player with
          activeForces := (assignEnvironmentalForces sampleEnv lateGame).player.activeForces } } ∧
    (assignEnvironmentalForces sampleEnv lateGame).camera = lateGame.camera :=
  assignEnvironmentalForces_appends sampleEnv lateGame 10 1
    (by simp [lateGame, fastPlayer, withMotion, setUp])
    (smoothstep_of_three_le 5 (by norm_num))

/-- C12. Intro ramp: for a player of finite mass `m` at the finite time `t`,
with a `smoothstep` that is 0 at `(0, 3, 0)` and 1 at `(0, 3, u)` for every
`u ≥ 3`: at `t = 0` every force that `assignEnvironmentalForces` pushes has
vertical component 0, and at every `t ≥ 3` it pushes gravity
`(0, -2 * G*M*m/R^2)`, the thrust `(80, 0)` and, if up is held, `(0, 500)`. -/
theorem assignEnvironmentalForces_intro_ramp (env : Env) (state : State) (m t : ℚ)
    (hm : state.player.mass = Num.fin m)
    (ht : state.time = Num.fin t)
    (h0 : env.smoothstep 0 3 (Num.fin 0) = Num.fin 0)
    (h1 : ∀ u : ℚ, 3 ≤ u → env.smoothstep 0 3 (Num.fin u) = Num.fin 1) :
    (t = 0 → ∀ f ∈ pushedForces env state, f.y = Num.fin 0) ∧
    (3 ≤ t → pushedForces env state =
      [Vec2.ofRat 0 (-2 * gravityRat m), Vec2.ofRat 80 0] ++
        (if state.keyStates.ArrowUp then [Vec2.ofRat 0 500] else [])) := by
  have hp : ∀ r : ℚ, env.smoothstep 0 3 state.time = Num.fin r →
      pushedForces env state =
        [Vec2.ofRat 0 (-2 * gravityRat m * r), Vec2.ofRat 80 0] ++
          (if state.keyStates.ArrowUp then [Vec2.ofRat 0 (500 * r)] else []) := by
    intro r hr
    rw [pushedForces, assignEnvironmentalForces_forces_fin env state m r hm hr,
      List.drop_left]
  constructor
  · intro h f hf
    subst h
    rw [hp 0 (by rw [ht]; exact h0)] at hf
    cases hup : state.keyStates.ArrowUp
    · simp [hup, Vec2.ofRat] at hf
      rcases hf with hf | hf <;> simp [hf]
    · simp [hup, Vec2.ofRat] at hf
      rcases hf with hf | hf | hf <;> simp [hf]
  · intro h
    rw [hp 1 (by rw [ht]; exact h1 t h)]
    simp

/-- C12 with the `smoothstep` modelled from the specification, at mass 10 and
time 5: the pushed forces are gravity at full magnitude, the thrust and the
full upward force. -/
theorem assignEnvironmentalForces_intro_ramp_witness :
    ((5 : ℚ) = 0 → ∀ f ∈ pushedForces sampleEnv lateGame, f.y = Num.fin 0) ∧
    ((3 : ℚ) ≤ 5 → pushedForces sampleEnv lateGame =
      [Vec2.ofRat 0 (-2 * gravityRat 10), Vec2.ofRat 80 0] ++
        (if lateGame.keyStates.ArrowUp then [Vec2.ofRat 0 500] else [])) :=
  assignEnvironmentalForces_intro_ramp sampleEnv lateGame 10 5
    (by simp [lateGame, fastPlayer, withMotion, setUp]) rfl
    smoothstep_at_zero smoothstep_of_three_le

/-- C13. Unfocused frames are no-ops: for every transformer with
`focused = false` and every sequence of `update(time, deltaTime)` calls with
arbitrary arguments, nothing changes: `state.time`, the position, velocity and
active forces of the player and of the camera, `playerYHistory` and
`yHistoryIndex` (and the uniforms and the cave texture) are as before. -/
theorem update_unfocused_noop (env : Env) (t : Transformer) (calls : List (Num × Num))
    (h : t.focused = false) :
    updates env t calls = t ∧
    (updates env t calls).state.time = t.state.time ∧
    (updates env t calls).state.player.position = t.state.player.position ∧
    (updates env t calls).state.player.velocity = t.state.player.velocity ∧
    (updates env t calls).state.player.activeForces = t.state.player.activeForces ∧
    (updates env t calls).state.camera.position = t.state.camera.position ∧
    (updates env t calls).state.camera.velocity = t.state.camera.velocity ∧
    (updates env t calls).state.camera.activeForces = t.state.camera.activeForces ∧
    (updates env t calls).state.playerYHistory = t.state.playerYHistory ∧
    (updates env t calls).state.yHistoryIndex = t.state.yHistoryIndex := by
  rw [updates_unfocused env calls t h]
  exact ⟨rfl, rfl, rfl, rfl, rfl, rfl, rfl, rfl, rfl, rfl⟩

/-- C13 at the scenario of the specification: ten `update` calls with varying
time and deltaTime on a transformer that has lost the focus. -/
theorem update_unfocused_noop_witness :
    updates sampleEnv blurred
      [(16, 16), (33, 17), (50, 17), (66, 16), (500, 434), (516, 16), (Num.nan, 16),
        (540, Num.nan), (560, 20), (1000, 440)] = blurred :=
  (update_unfocused_noop sampleEnv blurred _ rfl).1

/-- C14. Trail packing: with both blocks of 16 elements, after
`mapStateToUniforms`, for every segment index `k` in 0..5 and
`x_k = playerPixelX - 80 * k`, the triple `(x_k, getPastPlayerY(x_k), 0)` is in
three consecutive fields: for `k < 4` in `wormData` at offsets 4k, 4k+1, 4k+2,
for `k = 4, 5` in `wormData2` at offsets 4(k-4), 4(k-4)+1, 4(k-4)+2. -/
theorem mapStateToUniforms_trail_packing (env : Env) (state : State) (u : Uniforms)
    (hw : u.wormData.length = 16) (hw2 : u.wormData2.length = 16) (k : Nat) (hk : k < 6) :
    (k < 4 →
      (mapStateToUniforms env state u).wormData.get (4 * k) =
        (cameraTransform env state.player.position).x - Num.fin (80 * k) ∧
      (mapStateToUniforms env state u).wormData.get (4 * k + 1) =
        getPastPlayerY state (initialPlayerY env)
          ((cameraTransform env state.player.position).x - Num.fin (80 * k)) ∧
      (mapStateToUniforms env state u).wormData.get (4 * k + 2) = 0) ∧
    (4 ≤ k →
      (mapStateToUniforms env state u).wormData2.get (4 * (k - 4)) =
        (cameraTransform env state.player.position).x - Num.fin (80 * k) ∧
      (mapStateToUniforms env state u).wormData2.get (4 * (k - 4) + 1) =
        getPastPlayerY state (initialPlayerY env)
          ((cameraTransform env state.player.position).x - Num.fin (80 * k)) ∧
      (mapStateToUniforms env state u).wormData2.get (4 * (k - 4) + 2) = 0) := by
  have g1 := mapStateToUniforms_wormData_get env state u hw
  have g2 := mapStateToUniforms_wormData2_get env state u hw2
  have hp := wormPartPosition_eq env state (cameraTransform env state.player.position)
  constructor
  · intro h4
    interval_cases k
    · exact ⟨by rw [g1 0 (by norm_num), hp]; simp, by rw [g1 1 (by norm_num), hp]; simp,
        by rw [g1 2 (by norm_num)]; simp⟩
    · exact ⟨by rw [g1 4 (by norm_num), hp]; simp, by rw [g1 5 (by norm_num), hp]; simp,
        by rw [g1 6 (by norm_num)]; simp⟩
    · exact ⟨by rw [g1 8 (by norm_num), hp]; simp, by rw [g1 9 (by norm_num), hp]; simp,
        by rw [g1 10 (by norm_num)]; simp⟩
    · exact ⟨by rw [g1 12 (by norm_num), hp]; simp, by rw [g1 13 (by norm_num), hp]; simp,
        by rw [g1 14 (by norm_num)]; simp⟩
  · intro h4
    interval_cases k
    · exact ⟨by rw [g2 0 (by norm_num), hp]; simp, by rw [g2 1 (by norm_num), hp]; simp,
        by rw [g2 2 (by norm_num)]; simp⟩
    · exact ⟨by rw [g2 4 (by norm_num), hp]; simp, by rw [g2 5 (by norm_num), hp]; simp,
        by rw [g2 6 (by norm_num)]; simp⟩

/-- C14 at segment 5 of a concrete frame: from the uniforms of `setUp`, the
triple of segment 5 is at offsets 4, 5 and 6 of `wormData2`. -/
theorem mapStateToUniforms_trail_packing_witness :
    ((5 : Nat) < 4 →
      (mapStateToUniforms sampleEnv fastPlayer setUpUniforms).wormData.get (4 * 5) =
        (cameraTransform sampleEnv fastPlayer.player.position).x - Num.fin (80 * (5 : Nat)) ∧
      (mapStateToUniforms sampleEnv fastPlayer setUpUniforms).wormData.get (4 * 5 + 1) =
        getPastPlayerY fastPlayer (initialPlayerY sampleEnv)
          ((cameraTransform sampleEnv fastPlayer.player.position).x
            - Num.fin (80 * (5 : Nat))) ∧
      (mapStateToUniforms sampleEnv fastPlayer setUpUniforms).wormData.get (4 * 5 + 2) = 0) ∧
    ((4 : Nat) ≤ 5 →
      (mapStateToUniforms sampleEnv fastPlayer setUpUniforms).wormData2.get (4 * (5 - 4)) =
        (cameraTransform sampleEnv fastPlayer.player.position).x - Num.fin (80 * (5 : Nat)) ∧
      (mapStateToUniforms sampleEnv fastPlayer setUpUniforms).wormData2.get (4 * (5 - 4) + 1) =
        getPastPlayerY fastPlayer (initialPlayerY sampleEnv)
          ((cameraTransform sampleEnv fastPlayer.player.position).x
            - Num.fin (80 * (5 : Nat))) ∧
      (mapStateToUniforms sampleEnv fastPlayer setUpUniforms).wormData2.get (4 * (5 - 4) + 2)
        = 0) :=
  mapStateToUniforms_trail_packing sampleEnv fastPlayer setUpUniforms rfl rfl 5 (by norm_num)

/-- C15, the code at the failing frame. With `canvasWidth = 800` and
`devicePixelRatio = 2`, `getCaveDataTexture` allocates 800 / 8 = 100 texels,
while the loop of `updateCaveGeometry` runs `texelCount = 800 / (8 / 2) = 200`
rounds, with write indices 0..199: the sample count is not the texture
length, the writes at 100..199 are outside the texture (a typed array drops
them), and the texture keeps its 100 texels. -/
theorem updateCaveGeometry_overruns_texture :
    (getCaveDataTexture sampleEnv).map Float32Array.length = some 100 ∧
    texelCount sampleEnv = Num.fin 200 ∧
    loopRounds (texelCount sampleEnv) = 200 ∧
    (∀ v : Num, (Float32Array.zeros 100).set 199 v = Float32Array.zeros 100) ∧
    (∀ (state : State) (data : Float32Array), data.length = 100 →
      (updateCaveGeometry sampleEnv state data).length = 100) := by
  have ht : texelCount sampleEnv = Num.fin 200 := by
    simp only [texelCount, sampleEnv, CAVE_SAMPLE_DIST, Num.ofNat_eq]
    rw [Num.fin_div_of_ne _ (by norm_num), Num.fin_div_of_ne _ (by norm_num)]
    congr 1
    norm_num
  refine ⟨?_, ht, ?_, fun v => ?_, fun state data hd => ?_⟩
  · have e : sampleEnv.canvasWidth / Num.fin CAVE_SAMPLE_DIST = Num.fin 100 := by
      simp only [sampleEnv, CAVE_SAMPLE_DIST, Num.ofNat_eq]
      rw [Num.fin_div_of_ne _ (by norm_num)]
      congr 1
      norm_num
    have h100 : ¬ ((100 : ℚ) ≤ -1) := by norm_num
    have hfl : ⌊(100 : ℚ)⌋ = 100 := by simp
    simp [getCaveDataTexture, e, typedArrayLength, h100, hfl, Float32Array.zeros]
  · rw [ht]
    have hc : ⌈(200 : ℚ)⌉ = 200 := by simp
    simp [loopRounds, hc]
  · simp [Float32Array.set, Float32Array.zeros]
  · unfold updateCaveGeometry
    generalize List.range (loopRounds (texelCount sampleEnv)) = l
    induction l generalizing data with
    | nil => exact hd
    | cons i rest ih =>
      rw [List.foldl_cons]
      exact ih _ (by rw [Float32Array.length_set, hd])

/-- C16, the claim refuted. `setUp` leaves `playerYHistory` empty (length 0,
not 1000), and the first call, at x = 5, grows it to length 6. -/
theorem playerYHistory_starts_empty_and_grows :
    (setUp Vec2.zero Vec2.zero).playerYHistory.length = 0 ∧
    (setUp Vec2.zero Vec2.zero).playerYHistory.length ≠ 1000 ∧
    (updatePlayerYHistory (setUp Vec2.zero Vec2.zero) (Vec2.ofRat 5 1)).playerYHistory.length
      = 6 ∧
    (updatePlayerYHistory (setUp Vec2.zero Vec2.zero) (Vec2.ofRat 5 1)).playerYHistory.length ≠
      (setUp Vec2.zero Vec2.zero).playerYHistory.length := by
  decide

/-- C16 as amended. `playerYHistory` has length 0 at `setUp`; after any run of
`updatePlayerYHistory` calls (any positions, `NaN` included) a further call
never shrinks it and never takes its length above `L = 1000`;
`assignEnvironmentalForces` and `updateKinematics` leave the array alone. -/
theorem playerYHistory_length_bounded (env : Env) (p c : Vec2) (calls : List Vec2)
    (pos : Vec2) :
    (setUp p c).playerYHistory.length = 0 ∧
    (recordFrom (setUp p c) calls).playerYHistory.length ≤
      (updatePlayerYHistory (recordFrom (setUp p c) calls) pos).playerYHistory.length ∧
    (updatePlayerYHistory (recordFrom (setUp p c) calls) pos).playerYHistory.length ≤ 1000 ∧
    (∀ s : State, (assignEnvironmentalForces env s).playerYHistory = s.playerYHistory) ∧
    (∀ (s : State) (dt : Num), (updateKinematics s dt).playerYHistory = s.playerYHistory) := by
  have h0 : (setUp p c).playerYHistory.length = 0 := rfl
  have hb := updatePlayerYHistory_length_bounds (recordFrom (setUp p c) calls) pos
  exact ⟨h0, hb.1, hb.2 (recordFrom_length_le calls _ (by rw [h0]; norm_num)),
    fun _ => rfl, fun _ _ => rfl⟩

/-- C17. Unused block slots stay zero: from the zero blocks of `setUp`, after
any number of `mapStateToUniforms` calls (on any states), offsets 3, 7, 11, 15
of `wormData` and offsets 3, 7 and 8..15 of `wormData2` hold 0, and so does every
rotation field (offset 4j+2 of segment j: j < 4 in `wormData`, j < 2 in
`wormData2`). -/
theorem mapStateToUniforms_unused_slots_zero (env : Env) (states : List State) :
    (mapAll env states).wormData.get 3 = 0 ∧
    (mapAll env states).wormData.get 7 = 0 ∧
    (mapAll env states).wormData.get 11 = 0 ∧
    (mapAll env states).wormData.get 15 = 0 ∧
    (mapAll env states).wormData2.get 3 = 0 ∧
    (mapAll env states).wormData2.get 7 = 0 ∧
    (∀ i : Nat, 8 ≤ i → i < 16 → (mapAll env states).wormData2.get i = 0) ∧
    (∀ j : Nat, j < 4 → (mapAll env states).wormData.get (4 * j + 2) = 0) ∧
    (∀ j : Nat, j < 2 → (mapAll env states).wormData2.get (4 * j + 2) = 0) := by
  obtain ⟨_, _, h1, h2⟩ :=
    foldl_mapStateToUniforms_blocksOk env states setUpUniforms setUpUniforms_blocksOk
  have e : mapAll env states =
      states.foldl (fun u s => mapStateToUniforms env s u) setUpUniforms := rfl
  rw [e]
  refine ⟨h1 3 (by norm_num) (Or.inr rfl), h1 7 (by norm_num) (Or.inr rfl),
    h1 11 (by norm_num) (Or.inr rfl), h1 15 (by norm_num) (Or.inr rfl),
    h2 3 (by norm_num) (Or.inr (Or.inl rfl)), h2 7 (by norm_num) (Or.inr (Or.inl rfl)),
    fun i h8 hi => h2 i hi (Or.inr (Or.inr h8)),
    fun j hj => h1 (4 * j + 2) (by omega) (Or.inl (by omega)),
    fun j hj => h2 (4 * j + 2) (by omega) (Or.inl (by omega))⟩

/-- C18. Clock never rewinds: start from a transformer with `state.time = 0`
(as `setUp` leaves it) and run frames, focused or not in any mix, whose
millisecond timestamps are non-negative and non-decreasing. Before and after
any frame `f` of the run `state.time` is a non-negative number, the frame does
not decrease it, and if `f` is focused it becomes `f.time / 1000`. -/
theorem update_clock_never_rewinds (env : Env) (t0 : Transformer) (pre : List Frame)
    (f : Frame)
    (h0 : t0.state.time = Num.fin 0)
    (hs : List.Sorted (fun a b : ℚ => a ≤ b) ((pre ++ [f]).map Frame.time))
    (hn : ∀ g ∈ pre ++ [f], 0 ≤ g.time) :
    ∃ τ0 τ1 : ℚ,
      (runFrames env t0 pre).state.time = Num.fin τ0 ∧
      (runFrames env t0 (pre ++ [f])).state.time = Num.fin τ1 ∧
      0 ≤ τ0 ∧ τ0 ≤ τ1 ∧ (f.focused = true → τ1 = f.time / 1000) := by
  have hf0 : 0 ≤ f.time := hn f (by simp)
  obtain ⟨τ0, h1, h2, h3⟩ := runFrames_time env pre t0 0 h0 (le_refl _)
    (fun g hg => hn g (by simp [hg]))
  have hle : ∀ g ∈ pre, g.time ≤ f.time := by
    intro g hg
    rw [List.map_append, List.Sorted, List.pairwise_append] at hs
    exact hs.2.2 g.time (List.mem_map_of_mem _ hg) f.time (by simp)
  have hbound : τ0 ≤ f.time / 1000 := h3 f.time (by positivity) hle
  have hstep := runFrame_time env (runFrames env t0 pre) f
  rw [← runFrames_append] at hstep
  by_cases hfoc : f.focused = true
  · rw [if_pos hfoc] at hstep
    exact ⟨τ0, f.time / 1000, h1, hstep, h2, hbound, fun _ => rfl⟩
  · rw [if_neg hfoc, h1] at hstep
    exact ⟨τ0, τ0, h1, hstep, h2, le_refl _, fun h => absurd h hfoc⟩

/-- C18 at a concrete run: a focused frame at 16 ms, an unfocused one at 33 ms,
then a focused one at 50 ms. -/
theorem update_clock_never_rewinds_witness :
    ∃ τ0 τ1 : ℚ,
      (runFrames sampleEnv blurred [⟨true, 16, 16⟩, ⟨false, 33, 17⟩]).state.time = Num.fin τ0 ∧
      (runFrames sampleEnv blurred
        ([⟨true, 16, 16⟩, ⟨false, 33, 17⟩] ++ [⟨true, 50, 17⟩])).state.time = Num.fin τ1 ∧
      0 ≤ τ0 ∧ τ0 ≤ τ1 ∧ ((⟨true, 50, 17⟩ : Frame).focused = true → τ1 = 50 / 1000) :=
  update_clock_never_rewinds sampleEnv blurred [⟨true, 16, 16⟩, ⟨false, 33, 17⟩]
    ⟨true, 50, 17⟩ (by simp [blurred, fastPlayer, withMotion, setUp])
    (by simp [List.Sorted]; norm_num)
    (by
      intro g hg
      simp at hg
      rcases hg with rfl | rfl | rfl <;> norm_num)

/-- C19. Head segment round trip: for every history state reached from `setUp`
by `updatePlayerYHistory` calls at finite positions, and every pixel position
`(x, y)` with `x ≥ 0` and `y` a number, `getPastPlayerY(x)` right after
`updatePlayerYHistory({x, y})` returns `y`. So in a focused frame of a
transformer whose cursor is a number, if the player's pixel position after
the frame is `(x, y)` with `x ≥ 0`, trail segment 0 (offsets 0 and 1 of
`wormData`) is at `(x, y)`. -/
theorem getPastPlayerY_head_round_trip (env : Env) (p c : Vec2) (calls : List (ℚ × ℚ))
    (x y : ℚ) (fallback : Num) (hx : 0 ≤ x) :
    getPastPlayerY
      (updatePlayerYHistory (recordFrom (setUp p c) (finitePositions calls)) (Vec2.ofRat x y))
      fallback (Num.fin x) = Num.fin y ∧
    (∀ (t : Transformer) (time dt : Num), t.focused = true →
      t.uniforms.wormData.length = 16 →
      (∃ q : Int, t.state.yHistoryIndex = some q) →
      cameraTransform env (update env t time dt).state.player.position = Vec2.ofRat x y →
      (update env t time dt).uniforms.wormData.get 0 = Num.fin x ∧
      (update env t time dt).uniforms.wormData.get 1 = Num.fin y) := by
  obtain ⟨q, hq⟩ := recordFrom_finite_cursor calls (setUp p c) ⟨0, rfl⟩
  exact ⟨getPastPlayerY_after_update _ q x y fallback hq hx,
    fun t time dt hf hw hc hpos => update_head_segment env t time dt x y hf hw hc hpos hx⟩

/-- C19 at the run of the specification: after recording x = 5, y = 1,
recording x = 7, y = 2 and looking up x = 7 gives 2. -/
theorem getPastPlayerY_head_round_trip_witness :
    getPastPlayerY
      (updatePlayerYHistory (recordFrom (setUp Vec2.zero Vec2.zero) (finitePositions [(5, 1)]))
        (Vec2.ofRat 7 2))
      (Num.fin 250) (Num.fin 7) = Num.fin 2 :=
  (getPastPlayerY_head_round_trip sampleEnv Vec2.zero Vec2.zero [(5, 1)] 7 2 (Num.fin 250)
    (by norm_num)).1

/-- C20. History buffer invariant: after every non-empty run of
`updatePlayerYHistory` calls from the `setUp` state with non-negative pixel `x`
and a number `y`, no slot below the current length of the buffer is undefined
(each holds a number), the length is at most 1000, and the cursor
`yHistoryIndex` is an index below the length whose slot is written. -/
theorem updatePlayerYHistory_invariant (p c : Vec2) (calls : List (ℚ × ℚ))
    (hne : calls ≠ []) (hx : ∀ d ∈ calls, 0 ≤ d.1) :
    (∀ i : Int, 0 ≤ i →
      i < (recordFrom (setUp p c) (finitePositions calls)).playerYHistory.length →
      ∃ v : ℚ, (recordFrom (setUp p c) (finitePositions calls)).playerYHistory.slot i =
        some (Num.fin v)) ∧
    (recordFrom (setUp p c) (finitePositions calls)).playerYHistory.length ≤ 1000 ∧
    ∃ n : Int, (recordFrom (setUp p c) (finitePositions calls)).yHistoryIndex = some n ∧
      0 ≤ n ∧ n < (recordFrom (setUp p c) (finitePositions calls)).playerYHistory.length ∧
      ∃ v : ℚ, (recordFrom (setUp p c) (finitePositions calls)).playerYHistory.slot n =
        some (Num.fin v) := by
  have hsplit : calls = calls.dropLast ++ [calls.getLast hne] :=
    (List.dropLast_append_getLast hne).symm
  have hinit : HistoryOk (recordFrom (setUp p c) (finitePositions calls.dropLast)) :=
    recordFrom_historyOk calls.dropLast (setUp p c) (setUp_historyOk p c)
      (fun d hd => hx d (List.mem_of_mem_dropLast hd))
  have hlast : 0 ≤ (calls.getLast hne).1 := hx _ (List.getLast_mem hne)
  have hstep := updatePlayerYHistory_historyOk _ (calls.getLast hne).1 (calls.getLast hne).2
    hinit hlast
  have e : recordFrom (setUp p c) (finitePositions calls) =
      updatePlayerYHistory (recordFrom (setUp p c) (finitePositions calls.dropLast))
        (Vec2.ofRat (calls.getLast hne).1 (calls.getLast hne).2) := by
    conv_lhs => rw [hsplit]
    rw [finitePositions_append, recordFrom_append]
  rw [e]
  obtain ⟨⟨hlen, hslots, _⟩, n, hcur, hn0, hnlt, hsl⟩ := hstep
  exact ⟨hslots, hlen, n, hcur, hn0, hnlt, _, hsl⟩

/-- C20 at the run of the specification: record x = 5, y = 1, then x = 7,
y = 2. -/
theorem updatePlayerYHistory_invariant_witness :
    (∀ i : Int, 0 ≤ i →
      i < (recordFrom (setUp Vec2.zero Vec2.zero)
        (finitePositions [(5, 1), (7, 2)])).playerYHistory.length →
      ∃ v : ℚ, (recordFrom (setUp Vec2.zero Vec2.zero)
        (finitePositions [(5, 1), (7, 2)])).playerYHistory.slot i = some (Num.fin v)) ∧
    (recordFrom (setUp Vec2.zero Vec2.zero)
      (finitePositions [(5, 1), (7, 2)])).playerYHistory.length ≤ 1000 ∧
    ∃ n : Int, (recordFrom (setUp Vec2.zero Vec2.zero)
        (finitePositions [(5, 1), (7, 2)])).yHistoryIndex = some n ∧
      0 ≤ n ∧ n < (recordFrom (setUp Vec2.zero Vec2.zero)
        (finitePositions [(5, 1), (7, 2)])).playerYHistory.length ∧
      ∃ v : ℚ, (recordFrom (setUp Vec2.zero Vec2.zero)
        (finitePositions [(5, 1), (7, 2)])).playerYHistory.slot n = some (Num.fin v) :=
  updatePlayerYHistory_invariant Vec2.zero Vec2.zero [(5, 1), (7, 2)] (by simp)
    (by
      intro d hd
      simp at hd
      rcases hd with rfl | rfl <;> norm_num)

end UnderGame
